import Mathlib

/-!
Verification of the cinephrase phrase-search and clip-export engine
(`src/server.py`) against its natural-language specification.

Python strings are modelled as lists of characters (`PyStr`).  The
Unicode-dependent primitives used by the source — `unicodedata.normalize`
with form NFKC, `str.lower` (a context-free per-character full case
mapping), the character class of the regex `\w`, and `str.isspace` — are
parameters of the embedding, collected in `PyTextEnv`; theorems that need
Unicode facts (idempotence of NFKC, stability of case mapping, …) state
them as explicit hypotheses.  Timestamps are modelled as rationals.
-/

/-- A Python `str`, as a list of characters. -/
abbrev PyStr := List Char

/-- The Unicode-dependent character operations the source relies on:
`nfkc` is `unicodedata.normalize('NFKC', ·)`; `charLower` is the full
per-character lowercase mapping underlying `str.lower` (Python's `lower`
maps each character independently, possibly to several characters);
`isWordChar` is membership in the regex class `\w`; `isSpaceChar` is
`str.isspace` on a single character. -/
structure PyTextEnv where
  nfkc : PyStr → PyStr
  charLower : Char → PyStr
  isWordChar : Char → Bool
  isSpaceChar : Char → Bool

/-- Python `str.lower`: per-character full lowercase mapping. -/
def pyLower (env : PyTextEnv) (s : PyStr) : PyStr :=
  s.flatMap env.charLower

/-- Python `str.strip()`: remove leading and trailing whitespace. -/
def pyStrip (env : PyTextEnv) (s : PyStr) : PyStr :=
  ((s.dropWhile env.isSpaceChar).reverse.dropWhile env.isSpaceChar).reverse

/-- A character matched by the regex class `[\W_]` (not a word
character, or an underscore). -/
def edgeStrip (env : PyTextEnv) (c : Char) : Bool :=
  !env.isWordChar c || c == '_'

/-- Helper of `pySplit`: `acc` is the reversed current word. -/
def pySplitAux (env : PyTextEnv) : PyStr → PyStr → List PyStr
  | [], acc => if acc = [] then [] else [acc.reverse]
  | c :: s, acc =>
    if env.isSpaceChar c then
      if acc = [] then pySplitAux env s []
      else acc.reverse :: pySplitAux env s []
    else pySplitAux env s (c :: acc)

/-- Python `str.split()` with no argument: split on runs of whitespace,
discarding empty pieces. -/
def pySplit (env : PyTextEnv) (s : PyStr) : List PyStr :=
  pySplitAux env s []

/-- Python `' '.join(pieces)`. -/
def pyJoinSpace (pieces : List PyStr) : PyStr :=
  List.intercalate [' '] pieces

/-- `needle` is an initial segment of `hay` (helper for `pyContains`). -/
def pyStarts : PyStr → PyStr → Bool
  | _, [] => true
  | [], _ :: _ => false
  | c :: s, d :: t => c == d && pyStarts s t

/-- Python's substring test `needle in hay`. -/
def pyContains (hay needle : PyStr) : Bool :=
  (List.range (hay.length + 1)).any fun i => pyStarts (hay.drop i) needle

/-- `normalize_token` (src/server.py:1453): NFKC-normalize, lowercase and
strip the token, then delete the maximal leading and trailing runs of
`[\W_]` characters. -/
def normalize_token (env : PyTextEnv) (token : PyStr) : PyStr :=
  let normalized := pyStrip env (pyLower env (env.nfkc token))
  if normalized = [] then []
  else
    let n1 := normalized.dropWhile (edgeStrip env)
    (n1.reverse.dropWhile (edgeStrip env)).reverse

/-- `' '.join(s.lower().split())` — the whitespace/lower-case segment
normalization used when comparing segment texts (src/server.py:2266 etc.). -/
def segNorm (env : PyTextEnv) (s : PyStr) : PyStr :=
  pyJoinSpace (pySplit env (pyLower env s))

/-- `len(seg_normalized.split())` — word count of a normalized segment. -/
def wcN (env : PyTextEnv) (s : PyStr) : ℕ :=
  (pySplit env (segNorm env s)).length

/-- `len(s.split())` — raw word count, the sort key of the segment list. -/
def wcRaw (env : PyTextEnv) (s : PyStr) : ℕ :=
  (pySplit env s).length

/-- One word entry of a transcript sentence, as produced by the
transcript provider: raw text plus optional start/end timestamps. -/
structure PyWord where
  word : PyStr
  start : Option ℚ
  stop : Option ℚ
deriving DecidableEq

/-- One transcript sentence: its text content and its word list. -/
structure PySentence where
  content : PyStr
  words : List PyWord
deriving DecidableEq

/-- A usable flattened word entry (src/server.py:3466-3478): words whose
normalized form is non-empty and whose two timestamps are present. -/
structure FlatWord where
  word : PyStr
  normalized_word : PyStr
  start : ℚ
  stop : ℚ
deriving DecidableEq

/-- A match record returned by `find_matches_for_segment`. -/
structure PyMatch where
  segment : PyStr
  start : ℚ
  stop : ℚ
  first_silence : ℚ
  second_silence : ℚ
deriving DecidableEq

/-- The flat word list built by `find_matches_for_segment`
(src/server.py:3466-3478). -/
def flattenWords (env : PyTextEnv) (sentences : List PySentence) : List FlatWord :=
  sentences.flatMap fun sentence =>
    sentence.words.filterMap fun w =>
      match w.start, w.stop with
      | some st, some en =>
        let nw := normalize_token env w.word
        if nw = [] then none else some ⟨w.word, nw, st, en⟩
      | _, _ => none

/-- The normalized token list of a segment string
(src/server.py:3481-3487): split on whitespace, normalize each token,
drop the empty results. -/
def segmentTokens (env : PyTextEnv) (segment : PyStr) : List PyStr :=
  (pySplit env segment).filterMap fun w =>
    let n := normalize_token env w
    if n = [] then none else some n

/-- Body of the sliding-window loop of `find_matches_for_segment`
(src/server.py:3497-3540) at window start `i`: `none` when the window's
normalized tokens differ from the segment tokens or the silence check
rejects the window, `some` match otherwise. -/
def windowMatchAt (all_words : List FlatWord) (segment : PyStr)
    (segment_words : List PyStr) (min_duration max_duration : ℚ)
    (silence_word_threshold : ℕ) (i : ℕ) : Option PyMatch :=
  let word_count := segment_words.length
  let window := (all_words.drop i).take word_count
  if window.map FlatWord.normalized_word = segment_words then
    let start_time := ((window.head?).map FlatWord.start).getD 0
    let end_time := ((window.getLast?).map FlatWord.stop).getD 0
    let first_silence₀ :=
      if i > 0 then start_time - (((all_words.get? (i - 1)).map FlatWord.stop).getD 0)
      else start_time
    let second_silence₀ :=
      if i + word_count < all_words.length then
        (((all_words.get? (i + word_count)).map FlatWord.start).getD 0) - end_time
      else max_duration
    let first_silence := max first_silence₀ 0
    let second_silence := max second_silence₀ 0
    if word_count < silence_word_threshold then
      if min_duration ≤ first_silence ∧ first_silence ≤ max_duration ∧
          min_duration ≤ second_silence ∧ second_silence ≤ max_duration then
        some ⟨segment, start_time, end_time, first_silence, second_silence⟩
      else none
    else some ⟨segment, start_time, end_time, first_silence, second_silence⟩
  else none

/-- `find_matches_for_segment` (src/server.py:3464-3543): slide a window
of the segment's normalized word count across the flattened transcript
words; accept a token-equal window unconditionally when the word count
reaches `silence_word_threshold`, and otherwise only when the two
surrounding silences lie in `[min_duration, max_duration]`. -/
def find_matches_for_segment (env : PyTextEnv) (segment : PyStr)
    (sentences : List PySentence) (min_duration max_duration : ℚ)
    (silence_word_threshold : ℕ) : List PyMatch :=
  let all_words := flattenWords env sentences
  let segment_words := segmentTokens env segment
  if segment_words = [] ∨ all_words = [] then []
  else
    (List.range (all_words.length + 1 - segment_words.length)).filterMap
      (windowMatchAt all_words segment segment_words min_duration max_duration
        silence_word_threshold)

/-- Claim-side gap before the window (C1's words): `max(0, windowStart -
previousWordEnd)`, or `windowStart` when there is no predecessor. -/
def claimPrecedingGap (all_words : List FlatWord) (i : ℕ) (start_time : ℚ) : ℚ :=
  if i > 0 then max 0 (start_time - (((all_words.get? (i - 1)).map FlatWord.stop).getD 0))
  else start_time

/-- Claim-side gap after the window (C1's words): `max(0, nextWordStart -
windowEnd)`, or `maxGap` when there is no successor. -/
def claimFollowingGap (all_words : List FlatWord) (i word_count : ℕ)
    (end_time max_duration : ℚ) : ℚ :=
  if i + word_count < all_words.length then
    max 0 ((((all_words.get? (i + word_count)).map FlatWord.start).getD 0) - end_time)
  else max_duration

/-- Loop body of `spec_matches_for_segment`, written from C1's words: a
token-equal window is returned exactly when either the span's word count
is at least the threshold, or both claim-side gaps lie in
`[min_duration, max_duration]`. -/
def specWindowAt (all_words : List FlatWord) (segment : PyStr)
    (segment_words : List PyStr) (min_duration max_duration : ℚ)
    (silence_word_threshold : ℕ) (i : ℕ) : Option PyMatch :=
  let word_count := segment_words.length
  let window := (all_words.drop i).take word_count
  if window.map FlatWord.normalized_word = segment_words then
    let start_time := ((window.head?).map FlatWord.start).getD 0
    let end_time := ((window.getLast?).map FlatWord.stop).getD 0
    let pg := claimPrecedingGap all_words i start_time
    let fg := claimFollowingGap all_words i word_count end_time max_duration
    if word_count < silence_word_threshold →
        (min_duration ≤ pg ∧ pg ≤ max_duration ∧
          min_duration ≤ fg ∧ fg ≤ max_duration) then
      some ⟨segment, start_time, end_time, pg, fg⟩
    else none
  else none

/-- The matcher as claim C1 states it (spec §4.1 `findMatchesForSpan`),
for comparison with `find_matches_for_segment`. -/
def spec_matches_for_segment (env : PyTextEnv) (segment : PyStr)
    (sentences : List PySentence) (min_duration max_duration : ℚ)
    (silence_word_threshold : ℕ) : List PyMatch :=
  let all_words := flattenWords env sentences
  let segment_words := segmentTokens env segment
  if segment_words = [] ∨ all_words = [] then []
  else
    (List.range (all_words.length + 1 - segment_words.length)).filterMap
      (specWindowAt all_words segment segment_words min_duration max_duration
        silence_word_threshold)

/-- The `(i, j)` index pairs of the substring double loop of
`find_longest_matches_filtered` (src/server.py:3574-3575), in iteration
order: `i` in `range(total)`, `j` in `range(i+1, total+1)`. -/
def spanPairs (total : ℕ) : List (ℕ × ℕ) :=
  (List.range total).flatMap fun i =>
    (List.range' (i + 1) (total - i)).map fun j => (i, j)

/-- `find_longest_matches_filtered` (src/server.py:3546-3603): search
every contiguous sub-span of the input sentence, skipping spans shorter
than `min_words` unless they equal the full input sentence; deduplicate
matches by `(start, end, segment)` across the whole loop. -/
def find_longest_matches_filtered (env : PyTextEnv) (input_sentence : PyStr)
    (sentences : List PySentence) (min_silence max_silence : ℚ)
    (silence_word_threshold min_words : ℕ) : List PyMatch :=
  let input_words := pySplit env input_sentence
  let total_words := input_words.length
  if total_words = 0 then []
  else
    let thr := max silence_word_threshold 1
    ((spanPairs total_words).foldl
      (fun (st : List (ℚ × ℚ × PyStr) × List PyMatch) ij =>
        let segment_words := (input_words.drop ij.1).take (ij.2 - ij.1)
        let segment := pyJoinSpace segment_words
        let word_count := segment_words.length
        if word_count < min_words ∧ segment ≠ input_sentence then st
        else
          let segment_min_silence := if word_count < thr then min_silence else 0
          let found := find_matches_for_segment env segment sentences
            segment_min_silence max_silence thr
          found.foldl
            (fun (st' : List (ℚ × ℚ × PyStr) × List PyMatch) m =>
              let key : ℚ × ℚ × PyStr := (m.start, m.stop, segment)
              if key ∈ st'.1 then st' else (key :: st'.1, st'.2 ++ [m]))
            st)
      ([], [])).2

/-- Transcript validity screen of the per-file search loop
(src/server.py:2196-2205): at least one sentence with stripped non-empty
content or a non-empty word list. -/
def has_valid_content (env : PyTextEnv) (sentences : List PySentence) : Bool :=
  sentences.any fun s => pyStrip env s.content ≠ [] || s.words ≠ []

/-- Per-file match search of `find_and_export_longest_matches_incremental`
(src/server.py:2186-2238), full-match mode and filtered-partial mode.
`allP = true` (all-partials mode, `find_longest_matches`) is outside the
claims and not modelled; the filtered mode is used for it as a placeholder
argument value never exercised by any theorem below. -/
def search_file_matches (env : PyTextEnv) (input_sentence : PyStr)
    (sentences : List PySentence) (min_silence max_silence : ℚ)
    (silence_word_threshold : ℕ) (includeP : Bool) : List PyMatch :=
  if sentences = [] then []
  else if !has_valid_content env sentences then []
  else if !includeP then
    find_matches_for_segment env input_sentence sentences
      (if (pySplit env input_sentence).length < silence_word_threshold
        then min_silence else 0)
      max_silence silence_word_threshold
  else
    find_longest_matches_filtered env input_sentence sentences
      min_silence max_silence silence_word_threshold 3

/-- The `all_file_matches` list (src/server.py:2185-2245): one entry per
file that produced at least one match. -/
def collect_file_matches (env : PyTextEnv) (input_sentence : PyStr)
    (files : List (PyStr × List PySentence)) (min_silence max_silence : ℚ)
    (silence_word_threshold : ℕ) (includeP : Bool) :
    List (PyStr × List PyMatch) :=
  files.filterMap fun f =>
    let ms := search_file_matches env input_sentence f.2 min_silence
      max_silence silence_word_threshold includeP
    if ms = [] then none else some (f.1, ms)

/-- Append `(file, match)` under key `segment` of an insertion-ordered
association list, adding the key at the end when new — the Python dict
build of `segment_groups` (src/server.py:2251-2257). -/
def insertGrouped (segment : PyStr) (v : PyStr × PyMatch) :
    List (PyStr × List (PyStr × PyMatch)) → List (PyStr × List (PyStr × PyMatch))
  | [] => [(segment, [v])]
  | g :: gs =>
    if g.1 = segment then (g.1, g.2 ++ [v]) :: gs
    else g :: insertGrouped segment v gs

/-- `segment_groups` (src/server.py:2251-2257): matches of all files
grouped by segment text, keys in first-appearance order. -/
def segment_groups_of (all_file_matches : List (PyStr × List PyMatch)) :
    List (PyStr × List (PyStr × PyMatch)) :=
  all_file_matches.foldl
    (fun gs entry =>
      entry.2.foldl (fun gs' m => insertGrouped m.segment (entry.1, m) gs') gs)
    []

/-- Python dict lookup of a segment's group (empty when absent). -/
def lookupGroup (gs : List (PyStr × List (PyStr × PyMatch))) (s : PyStr) :
    List (PyStr × PyMatch) :=
  ((gs.find? fun g => g.1 == s).map Prod.snd).getD []

/-- Insert into a descending-sorted list, after existing entries of equal
key — one step of Python's stable `sorted(..., reverse=True)`. -/
def insertDescBy (key : PyStr → ℕ) (x : PyStr) : List PyStr → List PyStr
  | [] => [x]
  | y :: ys => if key x ≤ key y then y :: insertDescBy key x ys else x :: y :: ys

/-- Python's stable `sorted(segments, key=wordcount, reverse=True)`
(src/server.py:2260). -/
def pySortDesc (key : PyStr → ℕ) (l : List PyStr) : List PyStr :=
  l.foldl (fun acc x => insertDescBy key x acc) []

/-- First filtering pass of the full-match branch
(src/server.py:2300-2325): splits the sorted segments into
`prioritized_segments` (word count at least the input's, or normalized
text equal to the input's) and `other_segments` (the rest, kept only when
no prioritized segment collected so far is strictly longer and contains
them as a substring). -/
def firstPassStep (env : PyTextEnv) (inputNorm : PyStr) (inputWc : ℕ)
    (st : List PyStr × List PyStr) (seg : PyStr) : List PyStr × List PyStr :=
  if inputWc ≤ wcN env seg ∨ segNorm env seg = inputNorm then
    (st.1 ++ [seg], st.2)
  else if st.1.any fun l =>
      decide (wcN env seg < wcN env l) &&
        pyContains (segNorm env l) (segNorm env seg) then st
  else (st.1, st.2 ++ [seg])

def firstPassFold (env : PyTextEnv) (inputNorm : PyStr) (inputWc : ℕ)
    (segs : List PyStr) : List PyStr × List PyStr :=
  segs.foldl (firstPassStep env inputNorm inputWc) ([], [])

/-- Short-partial keep test shared by the two filtered sub-mode passes
(src/server.py:2331-2354 and 2370-2394): keep a segment when it has at
least 3 normalized words, or when no distinct strictly longer segment of
`pool` contains its normalized text as a substring. -/
def shortKeep (env : PyTextEnv) (pool : List PyStr) (seg : PyStr) : Bool :=
  decide (3 ≤ wcN env seg) || !(pool.any fun o =>
    o != seg && decide (wcN env seg < wcN env o) &&
      pyContains (segNorm env o) (segNorm env seg))

/-- Partial-mode segment filtering of
`find_and_export_longest_matches_incremental` (src/server.py:2288-2399),
applied to the sorted segment list. -/
def filter_partial_segments (env : PyTextEnv) (input_sentence : PyStr)
    (allP : Bool) (segs : List PyStr) : List PyStr :=
  let inputNorm := segNorm env input_sentence
  if segs.any fun s => segNorm env s == inputNorm then
    let inputWc := (pySplit env inputNorm).length
    let pr := (firstPassFold env inputNorm inputWc segs).1
    let ot := (firstPassFold env inputNorm inputWc segs).2
    if !allP then pr ++ ot.filter (shortKeep env (pr ++ ot)) else pr ++ ot
  else
    if !allP then segs.filter (shortKeep env segs) else segs

/-- The ordered segment list a search processes
(src/server.py:2185-2399): per-file matching, grouping by segment text,
stable sort by word count descending, then the mode-specific filter
(full-match filter, or the partial-mode filter). -/
def pipeline_segments (env : PyTextEnv) (input_sentence : PyStr)
    (files : List (PyStr × List PySentence)) (min_silence max_silence : ℚ)
    (silence_word_threshold : ℕ) (includeP allP : Bool) : List PyStr :=
  let collected := collect_file_matches env input_sentence files min_silence
    max_silence silence_word_threshold includeP
  if collected = [] then []
  else
    let gs := segment_groups_of collected
    let sorted := pySortDesc (wcRaw env) (gs.map Prod.fst)
    if !includeP then
      sorted.filter fun s => segNorm env s == segNorm env input_sentence
    else filter_partial_segments env input_sentence allP sorted

/-- `needle` is a final segment of `hay` — Python `str.endswith`. -/
def pyEnds (hay needle : PyStr) : Bool :=
  pyStarts hay.reverse needle.reverse

/-- Lexicographic comparison of Python strings by code point. -/
def lexLt : PyStr → PyStr → Bool
  | [], [] => false
  | [], _ :: _ => true
  | _ :: _, [] => false
  | c :: s, d :: t => if c < d then true else if d < c then false else lexLt s t

/-- Stable ascending insertion (helper for Python `sorted`). -/
def insertAsc (x : PyStr) : List PyStr → List PyStr
  | [] => [x]
  | y :: ys => if lexLt x y then x :: y :: ys else y :: insertAsc x ys

/-- Python `sorted` on a list of strings. -/
def pySortAsc (l : List PyStr) : List PyStr :=
  l.foldl (fun acc x => insertAsc x acc) []

/-- The clip metadata sidecar (src/server.py:2129-2134): version omitted,
it is never consulted. -/
structure ClipMetadata where
  source_files : List PyStr
  input_sentence : PyStr
  max_results : ℕ
deriving DecidableEq

/-- Outcome of the cache-validity prelude: whether the export is skipped,
the cached clip list positional reuse will walk, and whether the clip
directory was purged (`shutil.rmtree`). -/
structure CacheOutcome where
  skip_export : Bool
  cached_clip_files : List PyStr
  purged : Bool
deriving DecidableEq

/-- The `required_count` epilogue of the cache prelude
(src/server.py:2174-2182): purge and go fresh when no cached clip can be
used, else truncate the cached list to `max_results`. -/
def cacheFinishSkip (cached : List PyStr) (max_results : ℕ) : CacheOutcome :=
  if min cached.length max_results = 0 then ⟨false, [], true⟩
  else ⟨true, cached.take max_results, false⟩

/-- The cache-validity prelude of
`find_and_export_longest_matches_incremental` (src/server.py:2125-2182):
compare the stored metadata's `source_files` with the current sorted
source list; on a match, list the directory's `.mp4` files sorted,
verify each on disk, narrow to the verified subset, and purge/go fresh
only when nothing valid remains; on a mismatch, purge and go fresh. -/
def clip_cache_check (env : PyTextEnv) (stored : Option ClipMetadata)
    (current_source_files : List PyStr) (dirPresent : Bool)
    (listing : List PyStr) (presentOnDisk : PyStr → Bool)
    (max_results : ℕ) : CacheOutcome :=
  let currentSorted := pySortAsc current_source_files
  if (stored.map ClipMetadata.source_files) = some currentSorted then
    if dirPresent then
      let cached := pySortAsc (listing.filter fun n =>
        pyEnds (pyLower env n) ('.' :: ['m', 'p', '4']))
      if cached = [] then cacheFinishSkip [] max_results
      else
        let verified := cached.filter presentOnDisk
        if verified.length ≠ cached.length then
          if verified = [] then ⟨false, [], true⟩
          else cacheFinishSkip verified max_results
        else cacheFinishSkip cached max_results
    else ⟨false, [], false⟩
  else ⟨false, [], dirPresent⟩

/-- The configured GPU stream limit (src/server.py:46, default 2). -/
def MAX_GPU_STREAMS : ℕ := 2

/-- The per-segment clip cap (src/server.py:532). -/
def MAX_CLIPS_PER_SEGMENT : ℕ := 25

/-- The diagnostic substrings of the GPU failure signature
(src/server.py:2529-2534). -/
def gpu_error_signatures : List PyStr :=
  ["nvenc".toList, "No capable devices".toList,
    "incompatible client key".toList, "OpenEncodeSessionEx failed".toList,
    "No device".toList, "failed to initialize".toList,
    "Error while opening encoder".toList, "Could not open encoder".toList,
    "encoder initialization".toList, "Invalid parameter".toList,
    "invalid parameter".toList]

/-- A non-zero exit matches the GPU failure class
(src/server.py:2527-2534): exit code 187 or 244, or one of the
diagnostic substrings in the lowercased stderr. -/
def isGpuSignature (env : PyTextEnv) (code : ℤ) (stderr : PyStr) : Bool :=
  code == 187 || code == 244 || gpu_error_signatures.any fun sub =>
    pyContains (pyLower env stderr) (pyLower env sub)

/-- The external encode invocations `render_single_clip` can make. -/
inductive CmdKind where
  | primaryGpu
  | primaryCpu
  | minimalNvenc
  | retryCpu
deriving DecidableEq

/-- Outcome of one `render_single_clip` task: success flag, error text of
a per-task failure, the encode commands run in order, and whether
`disable_gpu_encoder` was called. -/
structure RenderResult where
  ok : Bool
  err : Option PyStr
  cmds : List CmdKind
  gpuDisabled : Bool
deriving DecidableEq

/-- Failure-handling core of `render_single_clip`
(src/server.py:2451-2593), over the results `exec` of the external
encode processes: run the primary command (GPU arguments exactly when an
encoder is configured and the non-blocking permit was obtained); on a
non-zero exit matching the GPU signature with an encoder configured, a
minimal-parameter NVENC retry happens only for exit 244 with an `nvenc`
encoder; any remaining signature failure disables the GPU encoder and
reruns on CPU; a non-signature failure is a per-task failure. -/
def render_single_clip (env : PyTextEnv) (gpu : Option (PyStr × List PyStr))
    (semAcquired : Bool) (exec : CmdKind → ℤ × PyStr) : RenderResult :=
  let use_gpu := gpu.isSome && semAcquired
  let primary := if use_gpu then CmdKind.primaryGpu else CmdKind.primaryCpu
  let r := exec primary
  if r.1 = 0 then ⟨true, none, [primary], false⟩
  else
    match gpu with
    | some enc =>
      if isGpuSignature env r.1 r.2 then
        if r.1 = 244 ∧ pyContains (pyLower env enc.1) "nvenc".toList then
          let rm := exec CmdKind.minimalNvenc
          if rm.1 = 0 then ⟨true, none, [primary, CmdKind.minimalNvenc], false⟩
          else
            let rc := exec CmdKind.retryCpu
            if rc.1 ≠ 0 then
              ⟨false, some rc.2, [primary, CmdKind.minimalNvenc, CmdKind.retryCpu], true⟩
            else ⟨true, none, [primary, CmdKind.minimalNvenc, CmdKind.retryCpu], true⟩
        else
          let rc := exec CmdKind.retryCpu
          if rc.1 ≠ 0 then ⟨false, some rc.2, [primary, CmdKind.retryCpu], true⟩
          else ⟨true, none, [primary, CmdKind.retryCpu], true⟩
      else ⟨false, some r.2, [primary], false⟩
    | none => ⟨false, some r.2, [primary], false⟩

/-- The process-wide GPU capability state: the `_GPU_ENCODER_CACHE`
global (`none` while undetected) and the `_GPU_DISABLED` flag
(src/server.py:42-49). -/
structure GpuState where
  cache : Option (Option (PyStr × List PyStr))
  disabled : Bool
deriving DecidableEq

/-- `get_gpu_encoder` (src/server.py:272-279). -/
def get_gpu_encoder (st : GpuState) : Option (PyStr × List PyStr) :=
  st.cache.getD none

/-- `disable_gpu_encoder` (src/server.py:109-114): set the disabled flag
and clear the cached encoder. -/
def disable_gpu_encoder (_ : GpuState) : GpuState :=
  ⟨some none, true⟩

/-- `detect_gpu_encoder` (src/server.py:116-126 and onwards), with the
hardware probe result as a parameter: return `(None, None)` when
disabled, the cache when set, else store and return the probe result. -/
def detect_gpu_encoder (st : GpuState)
    (probe : Option (PyStr × List PyStr)) : GpuState × Option (PyStr × List PyStr) :=
  if st.disabled then (st, none)
  else
    match st.cache with
    | some v => (st, v)
    | none => (⟨some probe, st.disabled⟩, probe)

/-- The operations that touch the process-wide GPU state. -/
inductive GpuOp where
  | disable
  | detect (probe : Option (PyStr × List PyStr))
  | get
deriving DecidableEq

/-- Apply one GPU-state operation. -/
def applyGpuOp (st : GpuState) : GpuOp → GpuState
  | GpuOp.disable => disable_gpu_encoder st
  | GpuOp.detect probe => (detect_gpu_encoder st probe).1
  | GpuOp.get => st

/-- Apply a sequence of GPU-state operations. -/
def applyGpuOps (st : GpuState) (ops : List GpuOp) : GpuState :=
  ops.foldl applyGpuOp st

/-- Progress of one clip-render task through the GPU-permit protocol of
`render_single_clip` (src/server.py:2451-2500): try the non-blocking
acquire, build the encoder arguments, release the permit in the
`finally` block — before `subprocess.run` — then run the encode. -/
inductive TaskPc where
  | init
  | builtArgs
  | ready
  | running
  | finished
deriving DecidableEq

/-- One task's scheduler state: program counter plus its `use_gpu` flag. -/
structure TaskState where
  pc : TaskPc
  use_gpu : Bool
deriving DecidableEq

/-- System state of the permit model: available permits of the counting
semaphore plus all task states. -/
structure SemSystem where
  sem : ℕ
  tasks : List TaskState
deriving DecidableEq

/-- Advance task `i` by one step, following the statement order of
`render_single_clip`: acquire (non-blocking: succeed exactly when a
permit is available), build arguments, release in `finally`, spawn the
encode, finish. -/
def semStep (st : SemSystem) (i : ℕ) : SemSystem :=
  match st.tasks.get? i with
  | none => st
  | some t =>
    match t.pc with
    | TaskPc.init =>
      let got := decide (0 < st.sem)
      ⟨if got then st.sem - 1 else st.sem,
        st.tasks.set i ⟨TaskPc.builtArgs, got⟩⟩
    | TaskPc.builtArgs =>
      ⟨if t.use_gpu then st.sem + 1 else st.sem,
        st.tasks.set i ⟨TaskPc.ready, t.use_gpu⟩⟩
    | TaskPc.ready => ⟨st.sem, st.tasks.set i ⟨TaskPc.running, t.use_gpu⟩⟩
    | TaskPc.running => ⟨st.sem, st.tasks.set i ⟨TaskPc.finished, t.use_gpu⟩⟩
    | TaskPc.finished => st

/-- Run a schedule (a list of task indices, each advancing that task one
step) from a given state. -/
def runSched (st : SemSystem) (sched : List ℕ) : SemSystem :=
  sched.foldl semStep st

/-- Initial state: a full permit pool of `MAX_GPU_STREAMS` and `n`
tasks about to render. -/
def semInit (n : ℕ) : SemSystem :=
  ⟨MAX_GPU_STREAMS, List.replicate n ⟨TaskPc.init, false⟩⟩

/-- Number of concurrently running encodes that use GPU encoder
arguments. -/
def gpuRunningCount (st : SemSystem) : ℕ :=
  st.tasks.countP fun t => decide (t.pc = TaskPc.running) && t.use_gpu

/-- Claim C8 as stated: under every interleaving, at most
`MAX_GPU_STREAMS` concurrently running encodes use GPU encoder
arguments. -/
def ClaimC8Bound : Prop :=
  ∀ (n : ℕ) (sched : List ℕ),
    gpuRunningCount (runSched (semInit n) sched) ≤ MAX_GPU_STREAMS

/-- Observable actions of one incremental search run: the events the
generator yields (`progress`, `clipProgress`, `segmentResult`), the
encode processes it starts (`encode`), and the values it reads from the
shared cancel flag (`obsC`) and skip set (`obsS`) at its checkpoints. -/
inductive RunAction where
  | progress (phrase : PyStr)
  | obsC (b : Bool)
  | obsS (b : Bool)
  | encode (clip : ℕ)
  | clipProgress (phrase : PyStr)
  | segmentResult (phrase : PyStr) (clips : List ℕ) (skipped : Bool)
deriving DecidableEq

/-- Result of one segment's parallel render batch: its action list, the
observation counter afterwards, the final future-cancellation and
segment-skipped flags, and the collected successful clip ids. -/
structure BatchOut where
  acts : List RunAction
  tick : ℕ
  futC : Bool
  skippedB : Bool
  results : List ℕ
deriving DecidableEq

/-- One segment's `as_completed` harvest loop (src/server.py:2655-2752).
All tasks are submitted up front; `started id` says whether the pool had
already dispatched the future for clip `id` by the time the pending
futures were cancelled (a cancel or skip observation) — `f.cancel()`
cannot stop a dispatched future, so a dispatched task still runs: its
encode process starts (possibly after the cancel was observed, since
`render_single_clip` never reads the flag) and its harvest still yields
a clip progress event and records the clip on success; only a future
the cancellation caught undispatched never runs — its harvest raises at
`future.result()` and contributes no event and no result.  Harvests are
taken in submission order; each harvest re-reads the cancel flag (a
threshold `cA` on the observation counter — the flag is set-once) and,
when that is clear, the skip set (threshold `sA` for this phrase); a
skip-detected iteration and every later one consume their future
silently.  A dispatched task's encode is placed at its harvest slot,
the latest point the run allows it. -/
def runBatch (cA sA : ℕ) (rOk started : ℕ → Bool) (phrase : PyStr) :
    List ℕ → ℕ → Bool → Bool → List ℕ → BatchOut
  | [], tick, futC, skippedB, results => ⟨[], tick, futC, skippedB, results⟩
  | id :: rest, tick, futC, skippedB, results =>
    let ran := !futC || started id
    let startActs : List RunAction :=
      if ran then [RunAction.encode id] else []
    if cA ≤ tick then
      if skippedB then
        let out := runBatch cA sA rOk started phrase rest (tick + 1) true
          skippedB results
        ⟨startActs ++ [RunAction.obsC true] ++ out.acts, out.tick, out.futC,
          out.skippedB, out.results⟩
      else
        let procActs : List RunAction :=
          if ran then [RunAction.clipProgress phrase] else []
        let results' := if ran && rOk id then results ++ [id] else results
        let out := runBatch cA sA rOk started phrase rest (tick + 1) true
          skippedB results'
        ⟨startActs ++ [RunAction.obsC true] ++ procActs ++ out.acts, out.tick,
          out.futC, out.skippedB, out.results⟩
    else if sA ≤ tick + 1 then
      let out := runBatch cA sA rOk started phrase rest (tick + 2) true true
        results
      ⟨startActs ++ [RunAction.obsC false, RunAction.obsS true] ++ out.acts,
        out.tick, out.futC, out.skippedB, out.results⟩
    else
      let procActs : List RunAction :=
        if ran then [RunAction.clipProgress phrase] else []
      let results' := if ran && rOk id then results ++ [id] else results
      let out := runBatch cA sA rOk started phrase rest (tick + 2) futC
        skippedB results'
      ⟨startActs ++ [RunAction.obsC false, RunAction.obsS false] ++ procActs ++
        out.acts, out.tick, out.futC, out.skippedB, out.results⟩

/-- The per-segment loop of `find_and_export_longest_matches_incremental`
in export mode (src/server.py:2598-3004), serialized: for each segment
(paired with its group's match count), yield a progress event, observe
the cancel flag (`GeneratorExit` ends the run) and the skip set; an
unskipped segment renders its first `maxr` matches through `runBatch`
(threading the dispatch oracle `started`) and yields its result event —
also when a cancel was observed during the batch; a skipped segment — and a segment whose
batch detected a skip — runs the sequential loop's checkpoints
(cancel: end the run; skip: confirmed, since the skip set only grows)
and yields a skipped event.  The cache-reuse bookkeeping of the
sequential branch is dead in export mode (the skip checkpoint breaks
first) and the sequential encode path is unreachable (its guard needs
the skip observation to flip back to false); that branch is `[]` here. -/
def runSegs (cA : ℕ) (sA : PyStr → ℕ) (rOk started : ℕ → Bool) (maxr : ℕ) :
    List (PyStr × ℕ) → ℕ → ℕ → List RunAction
  | [], _, _ => []
  | (p, m) :: rest, tick, clip =>
    let n := min m maxr
    if cA ≤ tick then [RunAction.progress p, RunAction.obsC true]
    else if sA p ≤ tick + 1 then
      if n = 0 then
        [RunAction.progress p, RunAction.obsC false, RunAction.obsS true,
          RunAction.segmentResult p [] true] ++
          runSegs cA sA rOk started maxr rest (tick + 2) clip
      else if cA ≤ tick + 2 then
        [RunAction.progress p, RunAction.obsC false, RunAction.obsS true,
          RunAction.obsC true]
      else if sA p ≤ tick + 3 then
        [RunAction.progress p, RunAction.obsC false, RunAction.obsS true,
          RunAction.obsC false, RunAction.obsS true,
          RunAction.segmentResult p [] true] ++
          runSegs cA sA rOk started maxr rest (tick + 4) clip
      else []
    else
      let out := runBatch cA (sA p) rOk started p (List.range' clip n)
        (tick + 2) false false []
      let acts := [RunAction.progress p, RunAction.obsC false,
        RunAction.obsS false] ++ out.acts
      if out.skippedB then
        if cA ≤ out.tick then acts ++ [RunAction.obsC true]
        else if sA p ≤ out.tick + 1 then
          acts ++ [RunAction.obsC false, RunAction.obsS true,
            RunAction.segmentResult p [] true] ++
            runSegs cA sA rOk started maxr rest (out.tick + 2) (clip + n)
        else acts
      else
        acts ++ [RunAction.segmentResult p out.results false] ++
          runSegs cA sA rOk started maxr rest out.tick (clip + n)

/-- The incremental search-and-export generator
(`find_and_export_longest_matches_incremental`,
src/server.py:2095-3015) in export mode, as its action trace: clamp the
silence threshold to at least 1, compute the ordered segment list and
the per-segment match groups, then run the serialized segment loop.
`cA` is the observation index from which the session's cancel flag reads
true, `sA phrase` likewise for the skip set, `rOk` tells which encodes
succeed, and `started` tells which clip tasks the thread pool had
already dispatched when a cancellation caught their batch. -/
def find_and_export_longest_matches_incremental (env : PyTextEnv)
    (input_sentence : PyStr) (files : List (PyStr × List PySentence))
    (min_silence max_silence : ℚ) (silence_word_threshold maxr : ℕ)
    (includeP allP : Bool) (cA : ℕ) (sA : PyStr → ℕ)
    (rOk started : ℕ → Bool) : List RunAction :=
  let thr := max silence_word_threshold 1
  let segs := pipeline_segments env input_sentence files min_silence
    max_silence thr includeP allP
  let gs := segment_groups_of (collect_file_matches env input_sentence files
    min_silence max_silence thr includeP)
  runSegs cA sA rOk started maxr
    (segs.map fun s => (s, (lookupGroup gs s).length)) 0 0

/-- Is this action a segment result event? -/
def isSegResult : RunAction → Bool
  | RunAction.segmentResult _ _ _ => true
  | _ => false

/-- Is this action the start of an encode process? -/
def isEncode : RunAction → Bool
  | RunAction.encode _ => true
  | _ => false

/-- The part of a trace after the first observation of a set cancel
flag ("once the session is marked cancelled…"). -/
def suffixAfterTrue : List RunAction → List RunAction
  | [] => []
  | RunAction.obsC true :: l => l
  | _ :: l => suffixAfterTrue l

/-- Claim C9 as stated, for one run's trace: once the cancel flag has
been observed set, no further segment result event is emitted and no
further encode process is started. -/
def ClaimC9At (tr : List RunAction) : Prop :=
  (suffixAfterTrue tr).countP isSegResult = 0 ∧
    (suffixAfterTrue tr).filter isEncode = []

/-- Claim C3 as stated, for one partial-mode (filtered) search: with a
full match present, every span at least as long as the phrase is
retained, and a retained shorter span is not a substring of a retained
longer span and has at least 3 words unless identical to the phrase;
with no full match, a retained span is never a substring of a retained
longer span. -/
def ClaimC3At (env : PyTextEnv) (input_sentence : PyStr)
    (files : List (PyStr × List PySentence)) (min_silence max_silence : ℚ)
    (silence_word_threshold : ℕ) : Prop :=
  let thr := max silence_word_threshold 1
  let collected := collect_file_matches env input_sentence files min_silence
    max_silence thr true
  let candidates := pySortDesc (wcRaw env)
    ((segment_groups_of collected).map Prod.fst)
  let out := pipeline_segments env input_sentence files min_silence
    max_silence thr true false
  let inputNorm := segNorm env input_sentence
  let inputWc := (pySplit env inputNorm).length
  if candidates.any fun s => segNorm env s == inputNorm then
    (∀ s ∈ candidates, inputWc ≤ wcN env s → s ∈ out) ∧
      ∀ s ∈ out, wcN env s < inputWc →
        (∀ l ∈ out, wcN env s < wcN env l →
            pyContains (segNorm env l) (segNorm env s) = false) ∧
          (3 ≤ wcN env s ∨ segNorm env s = inputNorm)
  else
    ∀ s ∈ out, ∀ l ∈ out, wcN env s < wcN env l →
      pyContains (segNorm env l) (segNorm env s) = false

/-- Claim C5 as stated, for one cache check: reuse happens exactly when
the stored source-file set matches the request's, and a missing listed
clip file — or an empty verified set — purges the directory and forces a
fresh export. -/
def ClaimC5At (env : PyTextEnv) (stored : Option ClipMetadata)
    (current_source_files : List PyStr) (dirPresent : Bool)
    (listing : List PyStr) (presentOnDisk : PyStr → Bool)
    (max_results : ℕ) : Prop :=
  let out := clip_cache_check env stored current_source_files dirPresent
    listing presentOnDisk max_results
  let mp4s := pySortAsc (listing.filter fun n =>
    pyEnds (pyLower env n) ('.' :: ['m', 'p', '4']))
  (out.skip_export = true ↔
      (stored.map ClipMetadata.source_files) = some (pySortAsc current_source_files)) ∧
    ((∃ f ∈ mp4s, presentOnDisk f = false) ∨ mp4s.filter presentOnDisk = [] →
      out.purged = true ∧ out.skip_export = false)

/-- Claim C7 as stated, for one render task: a GPU-backed encode failing
with the known signature gets exactly one minimal-parameter GPU retry,
and if that retry also fails the GPU is disabled and the task reruns on
CPU; a failure outside the signature is a per-task failure that leaves
the GPU enabled. -/
def ClaimC7At (env : PyTextEnv) (gpu : Option (PyStr × List PyStr))
    (semAcquired : Bool) (exec : CmdKind → ℤ × PyStr) : Prop :=
  let r := render_single_clip env gpu semAcquired exec
  let use_gpu := gpu.isSome && semAcquired
  let pr := exec (if use_gpu then CmdKind.primaryGpu else CmdKind.primaryCpu)
  (use_gpu = true → pr.1 ≠ 0 → isGpuSignature env pr.1 pr.2 = true →
      r.cmds.count CmdKind.minimalNvenc = 1 ∧
        ((exec CmdKind.minimalNvenc).1 ≠ 0 →
          r.gpuDisabled = true ∧ CmdKind.retryCpu ∈ r.cmds)) ∧
    (pr.1 ≠ 0 → isGpuSignature env pr.1 pr.2 = false →
      r.ok = false ∧ r.gpuDisabled = false)

/-- A concrete character environment: identity NFKC and lowercase
mapping, space as the only whitespace character, everything but space
and underscore a word character.  It agrees with Python's primitives on
the plain lower-case ASCII fixtures below and discharges the Unicode
hypotheses of the general theorems. -/
def trivEnv : PyTextEnv :=
  ⟨id, fun c => [c], fun c => !(c == ' ' || c == '_'), fun c => c == ' '⟩

/-- Fixture: transcript words `hello[0,1] world[2,3] today[10,11]`. -/
def scenarioSentences : List PySentence :=
  [⟨"hello world today".toList,
    [⟨"hello".toList, some 0, some 1⟩, ⟨"world".toList, some 2, some 3⟩,
      ⟨"today".toList, some 10, some 11⟩]⟩]

/-- Fixture: transcript words `a[0,1] b[2,3] c[4,5] d[6,7]`. -/
def abcdSentences : List PySentence :=
  [⟨"a b c d".toList,
    [⟨"a".toList, some 0, some 1⟩, ⟨"b".toList, some 2, some 3⟩,
      ⟨"c".toList, some 4, some 5⟩, ⟨"d".toList, some 6, some 7⟩]⟩]

/-- Fixture: one file with the `a b c d` transcript. -/
def abcdFiles : List (PyStr × List PySentence) :=
  [("v1.mp4".toList, abcdSentences)]

/-- Fixture: transcript with two occurrences of `hello world`. -/
def helloTwiceSentences : List PySentence :=
  [⟨"hello world hello world".toList,
    [⟨"hello".toList, some 0, some 1⟩, ⟨"world".toList, some 2, some 3⟩,
      ⟨"hello".toList, some 10, some 11⟩,
      ⟨"world".toList, some 12, some 13⟩]⟩]

/-- Fixture: one file with the double `hello world` transcript. -/
def helloTwiceFiles : List (PyStr × List PySentence) :=
  [("v1.mp4".toList, helloTwiceSentences)]

/-- Every action a render batch emits is an encode, an observation or a
clip progress event. -/
def isBatchAction : RunAction → Bool
  | RunAction.progress _ => false
  | RunAction.segmentResult _ _ _ => false
  | _ => true

/-- The primary encode command a render task runs: GPU arguments exactly
when an encoder is configured and the non-blocking permit was obtained. -/
def primaryCmd (gpu : Option (PyStr × List PyStr)) (semAcquired : Bool) :
    CmdKind :=
  if gpu.isSome && semAcquired then CmdKind.primaryGpu else CmdKind.primaryCpu

lemma pyLower_eq_self (env : PyTextEnv) {l : PyStr}
    (h : ∀ c ∈ l, env.charLower c = [c]) : pyLower env l = l := by
  induction l with
  | nil => rfl
  | cons c t ih =>
    have hc := h c (List.mem_cons_self c t)
    have ht := ih fun d hd => h d (List.mem_cons_of_mem c hd)
    simp only [pyLower, List.flatMap_cons] at ht ⊢
    rw [hc, ht]
    rfl

lemma mem_pyLower (env : PyTextEnv) {c : Char} {s : PyStr}
    (h : c ∈ pyLower env s) : ∃ d, c ∈ env.charLower d := by
  unfold pyLower at h
  rw [List.mem_flatMap] at h
  obtain ⟨d, _, hc⟩ := h
  exact ⟨d, hc⟩

lemma stripEnds_infix (p q : Char → Bool) (l : PyStr) :
    ((l.dropWhile p).reverse.dropWhile q).reverse <:+: l := by
  have h1 : List.dropWhile p l <:+ l := List.dropWhile_suffix p
  have h2 : List.dropWhile q (List.dropWhile p l).reverse <:+
      (List.dropWhile p l).reverse := List.dropWhile_suffix q
  have h3 : (List.dropWhile q (List.dropWhile p l).reverse).reverse <+:
      List.dropWhile p l := by
    rw [← List.reverse_suffix]
    simpa using h2
  exact h3.isInfix.trans h1.isInfix

lemma head?_of_isPrefix {l₁ l₂ : PyStr} (h : l₁ <+: l₂) {c : Char}
    (hc : l₁.head? = some c) : l₂.head? = some c := by
  obtain ⟨t, rfl⟩ := h
  rw [List.head?_append, hc]
  rfl

lemma dropWhile_eq_self_of_head (p : Char → Bool) {l : PyStr}
    (h : ∀ c, l.head? = some c → p c = false) : l.dropWhile p = l := by
  cases l with
  | nil => rfl
  | cons c t =>
    have := h c rfl
    simp [List.dropWhile_cons, this]

/-- A non-empty `normalize_token` result starts with a character outside
the class `[\W_]`. -/
lemma normalize_token_head (env : PyTextEnv) (s : PyStr) {c : Char}
    (h : (normalize_token env s).head? = some c) : edgeStrip env c = false := by
  unfold normalize_token at h
  set S := pyStrip env (pyLower env (env.nfkc s)) with hS
  by_cases hnil : S = []
  · simp [hnil] at h
  · simp only [if_neg hnil] at h
    set n1 := S.dropWhile (edgeStrip env) with hn1
    have hpre : (n1.reverse.dropWhile (edgeStrip env)).reverse <+: n1 := by
      rw [← List.reverse_suffix]
      simpa using List.dropWhile_suffix (l := n1.reverse) (edgeStrip env)
    have hh := head?_of_isPrefix hpre h
    have := List.head?_dropWhile_not (edgeStrip env) S
    rw [← hn1] at this
    rw [hh] at this
    exact this

/-- A non-empty `normalize_token` result ends with a character outside
the class `[\W_]`. -/
lemma normalize_token_last (env : PyTextEnv) (s : PyStr) {c : Char}
    (h : (normalize_token env s).getLast? = some c) : edgeStrip env c = false := by
  unfold normalize_token at h
  set S := pyStrip env (pyLower env (env.nfkc s)) with hS
  by_cases hnil : S = []
  · simp [hnil] at h
  · simp only [if_neg hnil] at h
    set n1 := S.dropWhile (edgeStrip env) with hn1
    rw [List.getLast?_reverse] at h
    have := List.head?_dropWhile_not (edgeStrip env) n1.reverse
    rw [h] at this
    exact this

/-- `normalize_token` is an infix of the stripped lowercased
NFKC-normalized input. -/
lemma normalize_token_inner (env : PyTextEnv) (s : PyStr) :
    normalize_token env s <:+: pyStrip env (pyLower env (env.nfkc s)) := by
  unfold normalize_token
  set S := pyStrip env (pyLower env (env.nfkc s)) with hS
  by_cases hnil : S = []
  · simp [hnil]
  · simp only [if_neg hnil]
    exact stripEnds_infix (edgeStrip env) (edgeStrip env) S

lemma pyStrip_inner (env : PyTextEnv) (l : PyStr) : pyStrip env l <:+: l :=
  stripEnds_infix env.isSpaceChar env.isSpaceChar l

/-- C10: `normalize_token` is idempotent, and a non-empty result neither
begins nor ends with a non-word character.  The hypotheses are the
standard facts about the Unicode primitives the source calls: NFKC is
idempotent, lowercasing preserves NFKC-normalization, an infix of an
NFKC-normalized string is NFKC-normalized, characters produced by the
lowercase mapping are fixed by it, and whitespace characters are not
word characters. -/
theorem C10_normalize_token_idempotent (env : PyTextEnv)
    (Hidem : ∀ s, env.nfkc (env.nfkc s) = env.nfkc s)
    (Hcase : ∀ s, env.nfkc s = s → env.nfkc (pyLower env s) = pyLower env s)
    (Hinf : ∀ s t, env.nfkc s = s → t <:+: s → env.nfkc t = t)
    (Hlow : ∀ c d, d ∈ env.charLower c → env.charLower d = [d])
    (Hsw : ∀ c, env.isSpaceChar c = true → env.isWordChar c = false)
    (s : PyStr) :
    normalize_token env (normalize_token env s) = normalize_token env s ∧
      (∀ c, (normalize_token env s).head? = some c → env.isWordChar c = true) ∧
      (∀ c, (normalize_token env s).getLast? = some c → env.isWordChar c = true) := by
  have wordOf : ∀ c, edgeStrip env c = false → env.isWordChar c = true := by
    intro c hc
    unfold edgeStrip at hc
    rcases Bool.or_eq_false_iff.mp hc with ⟨h1, _⟩
    simpa using h1
  refine ⟨?_, ?_, ?_⟩
  · -- idempotence
    set y := normalize_token env s with hy
    -- every character of y is in the image of the lowercase mapping
    have hyL : y <:+: pyLower env (env.nfkc s) :=
      (normalize_token_inner env s).trans (pyStrip_inner env _)
    have hlow_y : ∀ c ∈ y, env.charLower c = [c] := by
      intro c hc
      obtain ⟨d, hd⟩ := mem_pyLower env (hyL.subset hc)
      exact Hlow d c hd
    have hLy : pyLower env y = y := pyLower_eq_self env hlow_y
    -- y is NFKC-normalized
    have hNL : env.nfkc (pyLower env (env.nfkc s)) = pyLower env (env.nfkc s) :=
      Hcase _ (Hidem s)
    have hNy : env.nfkc y = y := Hinf _ _ hNL hyL
    -- y neither starts nor ends with an edge character
    have hhead : ∀ c, y.head? = some c → edgeStrip env c = false := fun c hc =>
      normalize_token_head env s hc
    have hlast : ∀ c, y.getLast? = some c → edgeStrip env c = false := fun c hc =>
      normalize_token_last env s hc
    have hheadNS : ∀ c, y.head? = some c → env.isSpaceChar c = false := by
      intro c hc
      have := wordOf c (hhead c hc)
      cases hsp : env.isSpaceChar c with
      | false => rfl
      | true => rw [Hsw c hsp] at this; exact absurd this (by simp)
    have hlastNS : ∀ c, y.getLast? = some c → env.isSpaceChar c = false := by
      intro c hc
      have := wordOf c (hlast c hc)
      cases hsp : env.isSpaceChar c with
      | false => rfl
      | true => rw [Hsw c hsp] at this; exact absurd this (by simp)
    -- y is whitespace-stripped
    have hSy : pyStrip env y = y := by
      unfold pyStrip
      rw [dropWhile_eq_self_of_head env.isSpaceChar hheadNS]
      rw [dropWhile_eq_self_of_head env.isSpaceChar
        (fun c hc => hlastNS c (by rwa [← List.head?_reverse]))]
      exact List.reverse_reverse y
    -- y is edge-stripped
    have hE1 : y.dropWhile (edgeStrip env) = y :=
      dropWhile_eq_self_of_head (edgeStrip env) hhead
    have hE2 : y.reverse.dropWhile (edgeStrip env) = y.reverse :=
      dropWhile_eq_self_of_head (edgeStrip env)
        (fun c hc => hlast c (by rwa [← List.head?_reverse]))
    show normalize_token env y = y
    unfold normalize_token
    rw [hNy, hLy, hSy]
    by_cases hnil : y = []
    · simp [hnil]
    · simp only [if_neg hnil]
      rw [hE1, hE2]
      exact List.reverse_reverse y
  · exact fun c hc => wordOf c (normalize_token_head env s hc)
  · exact fun c hc => wordOf c (normalize_token_last env s hc)

/-- Witness for C10 at the trivial environment and a concrete token. -/
theorem C10_witness :
    normalize_token trivEnv (normalize_token trivEnv " _hola!_ ".toList) =
        normalize_token trivEnv " _hola!_ ".toList ∧
      (∀ c, (normalize_token trivEnv " _hola!_ ".toList).head? = some c →
        trivEnv.isWordChar c = true) ∧
      (∀ c, (normalize_token trivEnv " _hola!_ ".toList).getLast? = some c →
        trivEnv.isWordChar c = true) :=
  C10_normalize_token_idempotent trivEnv (fun _ => rfl) (fun _ _ => rfl)
    (fun _ _ _ _ => by
      have : trivEnv.nfkc = id := rfl
      simp [this])
    (fun c d h => by
      have : trivEnv.charLower c = [c] := rfl
      rw [this] at h
      rw [List.mem_singleton] at h
      subst h
      rfl)
    (fun c h => by
      have hc : (c == ' ') = true := h
      have : c = ' ' := by exact beq_iff_eq.mp hc
      subst this
      rfl)
    " _hola!_ ".toList

lemma windowMatchAt_eq_spec (all_words : List FlatWord) (segment : PyStr)
    (segment_words : List PyStr) (min_duration max_duration : ℚ)
    (silence_word_threshold : ℕ) (i : ℕ) (hne : segment_words ≠ [])
    (hnn : ∀ w ∈ all_words, 0 ≤ w.start) (hmax : 0 ≤ max_duration) :
    windowMatchAt all_words segment segment_words min_duration max_duration
        silence_word_threshold i =
      specWindowAt all_words segment segment_words min_duration max_duration
        silence_word_threshold i := by
  unfold windowMatchAt specWindowAt
  simp only []
  by_cases hm : ((all_words.drop i).take segment_words.length).map
      FlatWord.normalized_word = segment_words
  · rw [if_pos hm, if_pos hm]
    have hwne : (all_words.drop i).take segment_words.length ≠ [] := by
      intro h
      rw [h] at hm
      simp only [List.map_nil] at hm
      exact hne hm.symm
    obtain ⟨w, hw⟩ : ∃ w, ((all_words.drop i).take segment_words.length).head? = some w := by
      cases h : ((all_words.drop i).take segment_words.length).head? with
      | none => exact absurd (List.head?_eq_none_iff.mp h) hwne
      | some w => exact ⟨w, rfl⟩
    have hwmem : w ∈ all_words := by
      have h1 : w ∈ (all_words.drop i).take segment_words.length :=
        List.mem_of_mem_head? (by rw [hw]; rfl)
      exact List.drop_subset i all_words (List.take_subset _ _ h1)
    have hstart : ((((all_words.drop i).take segment_words.length).head?).map
        FlatWord.start).getD 0 = w.start := by rw [hw]; rfl
    have h0 : (0:ℚ) ≤ ((((all_words.drop i).take segment_words.length).head?).map
        FlatWord.start).getD 0 := by rw [hstart]; exact hnn w hwmem
    have e1 : max (if i > 0 then
          ((((all_words.drop i).take segment_words.length).head?).map
            FlatWord.start).getD 0 -
            (((all_words.get? (i - 1)).map FlatWord.stop).getD 0)
        else ((((all_words.drop i).take segment_words.length).head?).map
            FlatWord.start).getD 0) 0 =
        claimPrecedingGap all_words i
          (((((all_words.drop i).take segment_words.length).head?).map
            FlatWord.start).getD 0) := by
      unfold claimPrecedingGap
      by_cases hi : i > 0
      · rw [if_pos hi, if_pos hi, max_comm]
      · rw [if_neg hi, if_neg hi]
        exact max_eq_left h0
    have e2 : max (if i + segment_words.length < all_words.length then
          (((all_words.get? (i + segment_words.length)).map FlatWord.start).getD 0) -
            ((((all_words.drop i).take segment_words.length).getLast?).map
              FlatWord.stop).getD 0
        else max_duration) 0 =
        claimFollowingGap all_words i segment_words.length
          (((((all_words.drop i).take segment_words.length).getLast?).map
            FlatWord.stop).getD 0) max_duration := by
      unfold claimFollowingGap
      by_cases hj : i + segment_words.length < all_words.length
      · rw [if_pos hj, if_pos hj, max_comm]
      · rw [if_neg hj, if_neg hj]
        exact max_eq_left hmax
    rw [e1, e2]
    by_cases ht : segment_words.length < silence_word_threshold
    · rw [if_pos ht]
      by_cases hq : min_duration ≤ claimPrecedingGap all_words i
            (((((all_words.drop i).take segment_words.length).head?).map
              FlatWord.start).getD 0) ∧
          claimPrecedingGap all_words i
            (((((all_words.drop i).take segment_words.length).head?).map
              FlatWord.start).getD 0) ≤ max_duration ∧
          min_duration ≤ claimFollowingGap all_words i segment_words.length
            (((((all_words.drop i).take segment_words.length).getLast?).map
              FlatWord.stop).getD 0) max_duration ∧
          claimFollowingGap all_words i segment_words.length
            (((((all_words.drop i).take segment_words.length).getLast?).map
              FlatWord.stop).getD 0) max_duration ≤ max_duration
      · rw [if_pos hq, if_pos (fun _ => hq)]
      · rw [if_neg hq, if_neg (fun h => hq (h ht))]
    · rw [if_neg ht, if_pos (fun h => absurd h ht)]
  · rw [if_neg hm, if_neg hm]

/-- C1: `find_matches_for_segment` returns exactly the matches described
by the claim — a token-equal sliding window is returned exactly when its
word count reaches the silence threshold or both claim-side gaps lie in
`[min_duration, max_duration]` — provided the transcript's word start
times are non-negative and `max_duration` is non-negative (the code
clamps both gaps to 0, the claim's wording only clamps the
predecessor-gap difference). -/
theorem C1_find_matches_matches_spec (env : PyTextEnv) (segment : PyStr)
    (sentences : List PySentence) (min_duration max_duration : ℚ)
    (silence_word_threshold : ℕ)
    (hnn : ∀ w ∈ flattenWords env sentences, 0 ≤ w.start)
    (hmax : 0 ≤ max_duration) :
    find_matches_for_segment env segment sentences min_duration max_duration
        silence_word_threshold =
      spec_matches_for_segment env segment sentences min_duration max_duration
        silence_word_threshold := by
  unfold find_matches_for_segment spec_matches_for_segment
  simp only []
  by_cases hg : segmentTokens env segment = [] ∨ flattenWords env sentences = []
  · rw [if_pos hg, if_pos hg]
  · rw [if_neg hg, if_neg hg]
    have hne : segmentTokens env segment ≠ [] := fun h => hg (Or.inl h)
    have : windowMatchAt (flattenWords env sentences) segment
        (segmentTokens env segment) min_duration max_duration
        silence_word_threshold =
      specWindowAt (flattenWords env sentences) segment
        (segmentTokens env segment) min_duration max_duration
        silence_word_threshold :=
      funext fun i => windowMatchAt_eq_spec _ _ _ _ _ _ i hne hnn hmax
    rw [this]

/-- Witness for C1: the `hello world` window of the scenario transcript. -/
theorem C1_witness :
    find_matches_for_segment trivEnv "hello world".toList scenarioSentences
        0 10 2 =
      spec_matches_for_segment trivEnv "hello world".toList scenarioSentences
        0 10 2 :=
  C1_find_matches_matches_spec trivEnv "hello world".toList scenarioSentences
    0 10 2 (by decide) (by decide)

lemma windowMatchAt_segment {all_words : List FlatWord} {segment : PyStr}
    {segment_words : List PyStr} {minD maxD : ℚ} {thr i : ℕ} {m : PyMatch}
    (h : windowMatchAt all_words segment segment_words minD maxD thr i = some m) :
    m.segment = segment := by
  unfold windowMatchAt at h
  simp only [] at h
  split_ifs at h <;> (injection h with h2; rw [← h2])

lemma find_matches_segment {env : PyTextEnv} {segment : PyStr}
    {sentences : List PySentence} {minD maxD : ℚ} {thr : ℕ} {m : PyMatch}
    (h : m ∈ find_matches_for_segment env segment sentences minD maxD thr) :
    m.segment = segment := by
  unfold find_matches_for_segment at h
  simp only [] at h
  split at h
  · exact absurd h (by simp)
  · obtain ⟨i, _, hi⟩ := List.mem_filterMap.mp h
    exact windowMatchAt_segment hi

lemma collect_full_segment {env : PyTextEnv} {input : PyStr}
    {files : List (PyStr × List PySentence)} {minS maxS : ℚ} {thr : ℕ}
    {e : PyStr × List PyMatch} {m : PyMatch}
    (he : e ∈ collect_file_matches env input files minS maxS thr false)
    (hm : m ∈ e.2) : m.segment = input := by
  unfold collect_file_matches at he
  obtain ⟨f, _, hf⟩ := List.mem_filterMap.mp he
  simp only [] at hf
  split at hf
  · exact absurd hf (by simp)
  · cases hf
    unfold search_file_matches at hm
    split at hm
    · exact absurd hm (by simp)
    · split at hm
      · exact absurd hm (by simp)
      · split at hm
        · exact find_matches_segment hm
        · simp_all

lemma insertGrouped_keys {seg : PyStr} {v : PyStr × PyMatch}
    {gs : List (PyStr × List (PyStr × PyMatch))} {s : PyStr}
    (h : s ∈ (insertGrouped seg v gs).map Prod.fst) :
    s = seg ∨ s ∈ gs.map Prod.fst := by
  induction gs with
  | nil => simpa [insertGrouped] using h
  | cons g t ih =>
    unfold insertGrouped at h
    split at h
    · simp only [List.map_cons, List.mem_cons] at h ⊢
      tauto
    · simp only [List.map_cons, List.mem_cons] at h ⊢
      rcases h with h | h
      · tauto
      · rcases ih h with h' | h' <;> tauto

lemma foldMatches_keys {f : PyStr} {ms : List PyMatch}
    {gs : List (PyStr × List (PyStr × PyMatch))} {s : PyStr}
    (h : s ∈ ((ms.foldl (fun gs' m => insertGrouped m.segment (f, m) gs') gs).map
      Prod.fst)) :
    s ∈ gs.map Prod.fst ∨ ∃ m ∈ ms, m.segment = s := by
  induction ms generalizing gs with
  | nil => exact Or.inl h
  | cons m t ih =>
    simp only [List.foldl_cons] at h
    rcases ih h with h' | h'
    · rcases insertGrouped_keys h' with h'' | h''
      · exact Or.inr ⟨m, List.mem_cons_self m t, h''.symm⟩
      · exact Or.inl h''
    · obtain ⟨m', hm', hs⟩ := h'
      exact Or.inr ⟨m', List.mem_cons_of_mem m hm', hs⟩

lemma segment_groups_keys {l : List (PyStr × List PyMatch)} {s : PyStr}
    (h : s ∈ (segment_groups_of l).map Prod.fst) :
    ∃ e ∈ l, ∃ m ∈ e.2, m.segment = s := by
  unfold segment_groups_of at h
  suffices H : ∀ (l' : List (PyStr × List PyMatch))
      (gs : List (PyStr × List (PyStr × PyMatch))),
      s ∈ ((l'.foldl (fun gs entry =>
        entry.2.foldl (fun gs' m => insertGrouped m.segment (entry.1, m) gs') gs)
          gs).map Prod.fst) →
      s ∈ gs.map Prod.fst ∨ ∃ e ∈ l', ∃ m ∈ e.2, m.segment = s by
    rcases H l [] h with h' | h'
    · exact absurd h' (by simp)
    · exact h'
  intro l'
  induction l' with
  | nil => exact fun gs h' => Or.inl h'
  | cons e t ih =>
    intro gs h'
    simp only [List.foldl_cons] at h'
    rcases ih _ h' with h'' | h''
    · rcases foldMatches_keys h'' with h3 | h3
      · exact Or.inl h3
      · obtain ⟨m, hm, hs⟩ := h3
        exact Or.inr ⟨e, List.mem_cons_self e t, m, hm, hs⟩
    · obtain ⟨e', he', rest⟩ := h''
      exact Or.inr ⟨e', List.mem_cons_of_mem e he', rest⟩

lemma mem_insertDescBy {key : PyStr → ℕ} {x s : PyStr} {l : List PyStr}
    (h : s ∈ insertDescBy key x l) : s = x ∨ s ∈ l := by
  induction l with
  | nil => simpa [insertDescBy] using h
  | cons y t ih =>
    unfold insertDescBy at h
    split at h
    · rcases List.mem_cons.mp h with h' | h'
      · exact Or.inr (h' ▸ List.mem_cons_self y t)
      · rcases ih h' with h'' | h''
        · exact Or.inl h''
        · exact Or.inr (List.mem_cons_of_mem y h'')
    · rcases List.mem_cons.mp h with h' | h'
      · exact Or.inl h'
      · exact Or.inr h'

lemma mem_pySortDesc {key : PyStr → ℕ} {s : PyStr} {l : List PyStr}
    (h : s ∈ pySortDesc key l) : s ∈ l := by
  unfold pySortDesc at h
  suffices H : ∀ (l' : List PyStr) (acc : List PyStr),
      s ∈ l'.foldl (fun acc x => insertDescBy key x acc) acc →
      s ∈ acc ∨ s ∈ l' by
    rcases H l [] h with h' | h'
    · exact absurd h' (by simp)
    · exact h'
  intro l'
  induction l' with
  | nil => exact fun acc h' => Or.inl h'
  | cons x t ih =>
    intro acc h'
    simp only [List.foldl_cons] at h'
    rcases ih _ h' with h'' | h''
    · rcases mem_insertDescBy h'' with h3 | h3
      · exact Or.inr (h3 ▸ List.mem_cons_self x t)
      · exact Or.inl h3
    · exact Or.inr (List.mem_cons_of_mem x h'')

lemma pipeline_full_eq_input {env : PyTextEnv} {input : PyStr}
    {files : List (PyStr × List PySentence)} {minS maxS : ℚ} {thr : ℕ}
    {allP : Bool} {s : PyStr}
    (h : s ∈ pipeline_segments env input files minS maxS thr false allP) :
    s = input := by
  unfold pipeline_segments at h
  simp only [] at h
  split at h
  · exact absurd h (by simp)
  · simp only [Bool.not_false, if_pos] at h
    have hs := List.mem_of_mem_filter h
    have := mem_pySortDesc hs
    obtain ⟨e, he, m, hm, hseg⟩ := segment_groups_keys this
    rw [← hseg]
    exact collect_full_segment he hm

lemma mem_ite_nil_right {α : Type} {c : Prop} [Decidable c] {l : List α}
    {a : α} (h : a ∈ (if c then l else ([] : List α))) : c ∧ a ∈ l := by
  split at h
  · rename_i hc
    exact ⟨hc, h⟩
  · simp at h

lemma runBatch_acts_shape {cA sA : ℕ} {rOk started : ℕ → Bool}
    {phrase : PyStr} {ids : List ℕ} {tick : ℕ} {futC skippedB : Bool}
    {results : List ℕ} {a : RunAction}
    (h : a ∈ (runBatch cA sA rOk started phrase ids tick futC skippedB
      results).acts) :
    isBatchAction a = true := by
  induction ids generalizing tick futC skippedB results with
  | nil => simp [runBatch] at h
  | cons id rest ih =>
    unfold runBatch at h
    simp only [] at h
    split at h <;> [split at h; (split at h <;> [skip; skip])]
    all_goals
      simp only [List.append_assoc, List.mem_append, List.mem_cons,
        List.mem_singleton, List.not_mem_nil, or_false, false_or] at h
    all_goals repeat' rcases h with h | h
    all_goals first
      | exact ih h
      | (rcases List.mem_singleton.mp (mem_ite_nil_right h).2 with rfl; rfl)
      | rfl

lemma runBatch_tick_le {cA sA : ℕ} {rOk started : ℕ → Bool} {phrase : PyStr}
    {ids : List ℕ} {tick : ℕ} {futC skippedB : Bool} {results : List ℕ} :
    tick ≤ (runBatch cA sA rOk started phrase ids tick futC skippedB
      results).tick := by
  induction ids generalizing tick futC skippedB results with
  | nil => simp [runBatch]
  | cons id rest ih =>
    unfold runBatch
    simp only []
    split <;> [split; (split <;> [skip; skip])]
    all_goals exact le_trans (by omega) ih

lemma runBatch_results_length {cA sA : ℕ} {rOk started : ℕ → Bool}
    {phrase : PyStr} {ids : List ℕ} {tick : ℕ} {futC skippedB : Bool}
    {results : List ℕ} :
    (runBatch cA sA rOk started phrase ids tick futC skippedB
      results).results.length ≤ results.length + ids.length := by
  induction ids generalizing tick futC skippedB results with
  | nil => simp [runBatch]
  | cons id rest ih =>
    unfold runBatch
    simp only []
    split <;> [split; (split <;> [skip; skip])]
    · exact le_trans ih (by simp [List.length_cons])
    · refine le_trans ih ?_
      split <;>
        simp only [List.length_append, List.length_cons, List.length_nil] <;>
        omega
    · exact le_trans ih (by simp [List.length_cons])
    · refine le_trans ih ?_
      split <;>
        simp only [List.length_append, List.length_cons, List.length_nil] <;>
        omega

lemma runBatch_futC_encode_started {cA sA : ℕ} {rOk started : ℕ → Bool}
    {phrase : PyStr} {ids : List ℕ} {tick : ℕ} {skippedB : Bool}
    {results : List ℕ} {c : ℕ}
    (h : RunAction.encode c ∈
      (runBatch cA sA rOk started phrase ids tick true skippedB
        results).acts) :
    started c = true := by
  induction ids generalizing tick skippedB results with
  | nil => simp [runBatch] at h
  | cons id rest ih =>
    unfold runBatch at h
    simp only [if_pos rfl, Bool.not_true, Bool.false_or] at h
    split at h <;> [split at h; (split at h <;> [skip; skip])]
    all_goals
      simp only [List.append_assoc, List.nil_append, List.mem_append,
        List.mem_cons, List.mem_singleton, List.not_mem_nil, or_false,
        false_or] at h
    all_goals repeat' rcases h with h | h
    all_goals first
      | exact ih h
      | (obtain ⟨hc, hm⟩ := mem_ite_nil_right h
         rcases List.mem_singleton.mp hm with hm
         first
           | (rcases RunAction.encode.inj hm with rfl
              exact hc)
           | simp at hm)

lemma suffixAfterTrue_append_of_not_mem {l₁ l₂ : List RunAction}
    (h : RunAction.obsC true ∉ l₁) :
    suffixAfterTrue (l₁ ++ l₂) = suffixAfterTrue l₂ := by
  induction l₁ with
  | nil => rfl
  | cons a t ih =>
    have ha : a ≠ RunAction.obsC true := fun he => h (he ▸ List.mem_cons_self a t)
    have ht : RunAction.obsC true ∉ t := fun he => h (List.mem_cons_of_mem a he)
    rw [List.cons_append]
    cases a with
    | obsC b =>
      cases b with
      | false => exact ih ht
      | true => exact absurd rfl ha
    | progress p => exact ih ht
    | obsS b => exact ih ht
    | encode c => exact ih ht
    | clipProgress p => exact ih ht
    | segmentResult p fs sk => exact ih ht

lemma suffixAfterTrue_append_of_mem {l₁ l₂ : List RunAction}
    (h : RunAction.obsC true ∈ l₁) :
    suffixAfterTrue (l₁ ++ l₂) = suffixAfterTrue l₁ ++ l₂ := by
  induction l₁ with
  | nil => simp at h
  | cons a t ih =>
    rw [List.cons_append]
    by_cases ha : a = RunAction.obsC true
    · subst ha
      rfl
    · have ht : RunAction.obsC true ∈ t := by
        rcases List.mem_cons.mp h with h' | h'
        · exact absurd h'.symm ha
        · exact h'
      cases a with
      | obsC b =>
        cases b with
        | false => exact ih ht
        | true => exact absurd rfl ha
      | progress p => exact ih ht
      | obsS b => exact ih ht
      | encode c => exact ih ht
      | clipProgress p => exact ih ht
      | segmentResult p fs sk => exact ih ht

lemma suffixAfterTrue_nil_of_not_mem {l : List RunAction}
    (h : RunAction.obsC true ∉ l) : suffixAfterTrue l = [] := by
  have := @suffixAfterTrue_append_of_not_mem l [] h
  simpa using this

lemma runBatch_suffix_encode_started {cA sA : ℕ} {rOk started : ℕ → Bool}
    {phrase : PyStr} {ids : List ℕ} {tick : ℕ} {futC skippedB : Bool}
    {results : List ℕ} {c : ℕ}
    (h : RunAction.encode c ∈ suffixAfterTrue
      (runBatch cA sA rOk started phrase ids tick futC skippedB
        results).acts) :
    started c = true := by
  induction ids generalizing tick futC skippedB results with
  | nil => simp [runBatch, suffixAfterTrue] at h
  | cons id rest ih =>
    unfold runBatch at h
    simp only [] at h
    have hstart : ∀ (b : Bool) (i : ℕ),
        RunAction.obsC true ∉ (if b then [RunAction.encode i]
          else ([] : List RunAction)) := by
      intro b i
      split <;> simp
    split at h <;> [split at h; (split at h <;> [skip; skip])]
    · -- cancel observed, skip branch: suffix is the recursive acts with futC true
      rw [List.append_assoc, suffixAfterTrue_append_of_not_mem (hstart _ _)] at h
      have : suffixAfterTrue ([RunAction.obsC true] ++
          (runBatch cA sA rOk started phrase rest (tick + 1) true skippedB
            results).acts) =
          (runBatch cA sA rOk started phrase rest (tick + 1) true skippedB
            results).acts := rfl
      rw [this] at h
      exact runBatch_futC_encode_started h
    · -- cancel observed, process branch
      rw [List.append_assoc, List.append_assoc,
        suffixAfterTrue_append_of_not_mem (hstart _ _)] at h
      have : suffixAfterTrue ([RunAction.obsC true] ++
          ((if (!futC || started id) then [RunAction.clipProgress phrase]
            else ([] : List RunAction)) ++
            (runBatch cA sA rOk started phrase rest (tick + 1) true skippedB
              (if (!futC || started id) && rOk id then results ++ [id]
                else results)).acts)) =
          (if (!futC || started id) then [RunAction.clipProgress phrase]
            else ([] : List RunAction)) ++
            (runBatch cA sA rOk started phrase rest (tick + 1) true skippedB
              (if (!futC || started id) && rOk id then results ++ [id]
                else results)).acts :=
        rfl
      rw [this] at h
      rcases List.mem_append.mp h with h | h
      · rcases List.mem_singleton.mp (mem_ite_nil_right h).2 with hm
        simp at hm
      · exact runBatch_futC_encode_started h
    · -- skip observed
      rw [List.append_assoc, suffixAfterTrue_append_of_not_mem (hstart _ _)] at h
      have : suffixAfterTrue ([RunAction.obsC false, RunAction.obsS true] ++
          (runBatch cA sA rOk started phrase rest (tick + 2) true true
            results).acts) =
          suffixAfterTrue (runBatch cA sA rOk started phrase rest (tick + 2)
            true true results).acts := rfl
      rw [this] at h
      exact ih h
    · -- neither observed
      rw [List.append_assoc, List.append_assoc,
        suffixAfterTrue_append_of_not_mem (hstart _ _)] at h
      have : suffixAfterTrue ([RunAction.obsC false, RunAction.obsS false] ++
          ((if (!futC || started id) then [RunAction.clipProgress phrase]
            else ([] : List RunAction)) ++
            (runBatch cA sA rOk started phrase rest (tick + 2) futC skippedB
              (if (!futC || started id) && rOk id then results ++ [id]
                else results)).acts)) =
          suffixAfterTrue ((if (!futC || started id)
            then [RunAction.clipProgress phrase]
            else ([] : List RunAction)) ++
            (runBatch cA sA rOk started phrase rest (tick + 2) futC skippedB
              (if (!futC || started id) && rOk id then results ++ [id]
                else results)).acts) :=
        rfl
      rw [this] at h
      have hproc : RunAction.obsC true ∉
          (if (!futC || started id) then [RunAction.clipProgress phrase]
            else ([] : List RunAction)) := by
        split <;> simp
      rw [suffixAfterTrue_append_of_not_mem hproc] at h
      exact ih h

lemma runBatch_obsC_true_tick {cA sA : ℕ} {rOk started : ℕ → Bool}
    {phrase : PyStr} {ids : List ℕ} {tick : ℕ} {futC skippedB : Bool}
    {results : List ℕ}
    (h : RunAction.obsC true ∈
      (runBatch cA sA rOk started phrase ids tick futC skippedB
        results).acts) :
    cA ≤ (runBatch cA sA rOk started phrase ids tick futC skippedB
      results).tick := by
  induction ids generalizing tick futC skippedB results with
  | nil => simp [runBatch] at h
  | cons id rest ih =>
    unfold runBatch at h ⊢
    simp only [] at h ⊢
    by_cases hc : cA ≤ tick
    · rw [if_pos hc] at h ⊢
      by_cases hsk : skippedB = true
      · rw [if_pos hsk] at h ⊢
        dsimp only at h ⊢
        exact le_trans hc (le_trans (Nat.le_succ tick) runBatch_tick_le)
      · rw [if_neg hsk] at h ⊢
        dsimp only at h ⊢
        exact le_trans hc (le_trans (Nat.le_succ tick) runBatch_tick_le)
    · rw [if_neg hc] at h ⊢
      by_cases hs : sA ≤ tick + 1
      · rw [if_pos hs] at h ⊢
        dsimp only at h ⊢
        simp only [List.append_assoc, List.mem_append, List.mem_cons,
          List.mem_singleton, List.not_mem_nil, or_false, false_or] at h
        repeat' rcases h with h | h
        all_goals first
          | exact ih h
          | exact absurd (mem_ite_nil_right h).2 (by simp)
      · rw [if_neg hs] at h ⊢
        dsimp only at h ⊢
        simp only [List.append_assoc, List.mem_append, List.mem_cons,
          List.mem_singleton, List.not_mem_nil, or_false, false_or] at h
        repeat' rcases h with h | h
        all_goals first
          | exact ih h
          | exact absurd (mem_ite_nil_right h).2 (by simp)

lemma suffixAfterTrue_subset {l : List RunAction} :
    suffixAfterTrue l ⊆ l := by
  induction l with
  | nil => exact fun a h => h
  | cons x t ih =>
    cases x with
    | obsC b =>
      cases b with
      | true => exact fun a h => List.mem_cons_of_mem _ h
      | false => exact fun a h => List.mem_cons_of_mem _ (ih h)
    | progress p => exact fun a h => List.mem_cons_of_mem _ (ih h)
    | obsS b => exact fun a h => List.mem_cons_of_mem _ (ih h)
    | encode c => exact fun a h => List.mem_cons_of_mem _ (ih h)
    | clipProgress p => exact fun a h => List.mem_cons_of_mem _ (ih h)
    | segmentResult p fs sk => exact fun a h => List.mem_cons_of_mem _ (ih h)

lemma runSegs_cancelled {cA : ℕ} {sA : PyStr → ℕ} {rOk started : ℕ → Bool}
    {maxr : ℕ} {segs : List (PyStr × ℕ)} {tick clip : ℕ} (h : cA ≤ tick) :
    runSegs cA sA rOk started maxr segs tick clip =
      match segs with
      | [] => []
      | (p, _) :: _ => [RunAction.progress p, RunAction.obsC true] := by
  cases segs with
  | nil => rfl
  | cons pm rest =>
    obtain ⟨p, m⟩ := pm
    unfold runSegs
    simp [h]

lemma segResult_not_batch {q : PyStr} {fs : List ℕ} {sk : Bool}
    {cA sA : ℕ} {rOk started : ℕ → Bool} {phrase : PyStr} {ids : List ℕ}
    {tick : ℕ} {futC skippedB : Bool} {results : List ℕ}
    (h : RunAction.segmentResult q fs sk ∈
      (runBatch cA sA rOk started phrase ids tick futC skippedB
        results).acts) :
    False := by
  have := runBatch_acts_shape h
  simp [isBatchAction] at this

lemma runSegs_segResult_mem {cA : ℕ} {sA : PyStr → ℕ} {rOk started : ℕ → Bool}
    {maxr : ℕ} {segs : List (PyStr × ℕ)} {tick clip : ℕ} {q : PyStr}
    {fs : List ℕ} {sk : Bool}
    (h : RunAction.segmentResult q fs sk ∈
      runSegs cA sA rOk started maxr segs tick clip) :
    q ∈ segs.map Prod.fst := by
  induction segs generalizing tick clip with
  | nil => simp [runSegs] at h
  | cons pm rest ih =>
    obtain ⟨p, m⟩ := pm
    unfold runSegs at h
    simp only [] at h
    split at h
    · simp at h
    · split at h
      · split at h
        · simp only [List.cons_append, List.nil_append, List.mem_cons] at h
          rcases h with h | h | h | h | h
          · simp at h
          · simp at h
          · simp at h
          · rw [RunAction.segmentResult.injEq] at h
            obtain ⟨rfl, -, -⟩ := h
            simp
          · exact List.mem_cons_of_mem _ (ih h)
        · split at h
          · simp at h
          · split at h
            · simp only [List.cons_append, List.nil_append, List.mem_cons] at h
              rcases h with h | h | h | h | h | h | h
              · simp at h
              · simp at h
              · simp at h
              · simp at h
              · simp at h
              · rw [RunAction.segmentResult.injEq] at h
                obtain ⟨rfl, -, -⟩ := h
                simp
              · exact List.mem_cons_of_mem _ (ih h)
            · simp at h
      · split at h
        · split at h
          · simp only [List.cons_append, List.nil_append, List.append_assoc,
              List.mem_append, List.mem_cons, List.mem_singleton,
              List.not_mem_nil, or_false] at h
            rcases h with h | h | h | h | h
            · simp at h
            · simp at h
            · simp at h
            · exact absurd h (fun hc => segResult_not_batch hc)
            · simp at h
          · split at h
            · simp only [List.cons_append, List.nil_append, List.append_assoc,
                List.mem_append, List.mem_cons, List.mem_singleton,
                List.not_mem_nil, or_false] at h
              rcases h with h | h | h | h | h | h | h | h
              · simp at h
              · simp at h
              · simp at h
              · exact absurd h (fun hc => segResult_not_batch hc)
              · simp at h
              · simp at h
              · rw [RunAction.segmentResult.injEq] at h
                obtain ⟨rfl, -, -⟩ := h
                simp
              · exact List.mem_cons_of_mem _ (ih h)
            · simp only [List.cons_append, List.nil_append, List.mem_cons] at h
              rcases h with h | h | h | h
              · simp at h
              · simp at h
              · simp at h
              · exact absurd h (fun hc => segResult_not_batch hc)
        · simp only [List.cons_append, List.nil_append, List.append_assoc,
            List.mem_append, List.mem_cons, List.mem_singleton,
            List.not_mem_nil, or_false] at h
          rcases h with h | h | h | h | h | h
          · simp at h
          · simp at h
          · simp at h
          · exact absurd h (fun hc => segResult_not_batch hc)
          · rw [RunAction.segmentResult.injEq] at h
            obtain ⟨rfl, -, -⟩ := h
            simp
          · exact List.mem_cons_of_mem _ (ih h)

lemma runSegs_segResult_len {cA : ℕ} {sA : PyStr → ℕ} {rOk started : ℕ → Bool}
    {maxr : ℕ} {segs : List (PyStr × ℕ)} {tick clip : ℕ} {q : PyStr}
    {fs : List ℕ} {sk : Bool}
    (h : RunAction.segmentResult q fs sk ∈
      runSegs cA sA rOk started maxr segs tick clip) :
    fs.length ≤ maxr := by
  induction segs generalizing tick clip with
  | nil => simp [runSegs] at h
  | cons pm rest ih =>
    obtain ⟨p, m⟩ := pm
    unfold runSegs at h
    simp only [] at h
    split at h
    · simp at h
    · split at h
      · split at h
        · simp only [List.cons_append, List.nil_append, List.mem_cons] at h
          rcases h with h | h | h | h | h
          · simp at h
          · simp at h
          · simp at h
          · rw [RunAction.segmentResult.injEq] at h
            obtain ⟨-, rfl, -⟩ := h
            simp
          · exact ih h
        · split at h
          · simp at h
          · split at h
            · simp only [List.cons_append, List.nil_append, List.mem_cons] at h
              rcases h with h | h | h | h | h | h | h
              · simp at h
              · simp at h
              · simp at h
              · simp at h
              · simp at h
              · rw [RunAction.segmentResult.injEq] at h
                obtain ⟨-, rfl, -⟩ := h
                simp
              · exact ih h
            · simp at h
      · split at h
        · split at h
          · simp only [List.cons_append, List.nil_append, List.append_assoc,
              List.mem_append, List.mem_cons, List.mem_singleton,
              List.not_mem_nil, or_false] at h
            rcases h with h | h | h | h | h
            · simp at h
            · simp at h
            · simp at h
            · exact absurd h (fun hc => segResult_not_batch hc)
            · simp at h
          · split at h
            · simp only [List.cons_append, List.nil_append, List.append_assoc,
                List.mem_append, List.mem_cons, List.mem_singleton,
                List.not_mem_nil, or_false] at h
              rcases h with h | h | h | h | h | h | h | h
              · simp at h
              · simp at h
              · simp at h
              · exact absurd h (fun hc => segResult_not_batch hc)
              · simp at h
              · simp at h
              · rw [RunAction.segmentResult.injEq] at h
                obtain ⟨-, rfl, -⟩ := h
                simp
              · exact ih h
            · simp only [List.cons_append, List.nil_append, List.mem_cons] at h
              rcases h with h | h | h | h
              · simp at h
              · simp at h
              · simp at h
              · exact absurd h (fun hc => segResult_not_batch hc)
        · simp only [List.cons_append, List.nil_append, List.append_assoc,
            List.mem_append, List.mem_cons, List.mem_singleton,
            List.not_mem_nil, or_false] at h
          rcases h with h | h | h | h | h | h
          · simp at h
          · simp at h
          · simp at h
          · exact absurd h (fun hc => segResult_not_batch hc)
          · rw [RunAction.segmentResult.injEq] at h
            obtain ⟨-, rfl, -⟩ := h
            have := @runBatch_results_length cA (sA p) rOk started p
              (List.range' clip (min m maxr)) (tick + 2) false false []
            simp only [List.length_nil, List.length_range', Nat.zero_add] at this
            exact le_trans this (min_le_right m maxr)
          · exact ih h

lemma isSegResult_false_of_batch {a : RunAction} (h : isBatchAction a = true) :
    isSegResult a = false := by
  cases a <;> simp_all [isBatchAction, isSegResult]

lemma countP_suffix_batch_zero {cA sA : ℕ} {rOk started : ℕ → Bool}
    {phrase : PyStr} {ids : List ℕ} {tick : ℕ} {futC skippedB : Bool}
    {results : List ℕ} :
    ((suffixAfterTrue
      (runBatch cA sA rOk started phrase ids tick futC skippedB
        results).acts).countP isSegResult) = 0 := by
  rw [List.countP_eq_zero]
  intro a ha
  have := runBatch_acts_shape (suffixAfterTrue_subset ha)
  simp [isSegResult_false_of_batch this]

lemma suffixAfterTrue_progress {p : PyStr} {l : List RunAction} :
    suffixAfterTrue (RunAction.progress p :: l) = suffixAfterTrue l := rfl

lemma suffixAfterTrue_obsC_false {l : List RunAction} :
    suffixAfterTrue (RunAction.obsC false :: l) = suffixAfterTrue l := rfl

lemma suffixAfterTrue_obsS {b : Bool} {l : List RunAction} :
    suffixAfterTrue (RunAction.obsS b :: l) = suffixAfterTrue l := rfl

lemma suffixAfterTrue_segRes {p : PyStr} {fs : List ℕ} {sk : Bool}
    {l : List RunAction} :
    suffixAfterTrue (RunAction.segmentResult p fs sk :: l) =
      suffixAfterTrue l := rfl

lemma suffixAfterTrue_obsC_true {l : List RunAction} :
    suffixAfterTrue (RunAction.obsC true :: l) = l := rfl

lemma runSegs_suffix_spec {cA : ℕ} {sA : PyStr → ℕ} {rOk started : ℕ → Bool}
    {maxr : ℕ} (segs : List (PyStr × ℕ)) (tick clip : ℕ) :
    (∀ c : ℕ, RunAction.encode c ∈
        suffixAfterTrue (runSegs cA sA rOk started maxr segs tick clip) →
        started c = true) ∧
      (suffixAfterTrue (runSegs cA sA rOk started maxr segs tick clip)).countP
        isSegResult ≤ 1 := by
  induction segs generalizing tick clip with
  | nil => simp [runSegs, suffixAfterTrue]
  | cons pm rest ih =>
    obtain ⟨p, m⟩ := pm
    unfold runSegs
    simp only []
    split
    · -- cancel observed at the segment pre-check: the run ends
      rw [suffixAfterTrue_progress, suffixAfterTrue_obsC_true]
      simp
    · split
      · split
        · -- skipped with an empty match list
          simp only [List.cons_append, List.nil_append]
          rw [suffixAfterTrue_progress, suffixAfterTrue_obsC_false,
            suffixAfterTrue_obsS, suffixAfterTrue_segRes]
          exact ih _ _
        · split
          · -- skipped, cancel observed at the sequential checkpoint
            rw [suffixAfterTrue_progress, suffixAfterTrue_obsC_false,
              suffixAfterTrue_obsS, suffixAfterTrue_obsC_true]
            simp
          · split
            · -- skipped, confirmed at the sequential checkpoint
              simp only [List.cons_append, List.nil_append]
              rw [suffixAfterTrue_progress, suffixAfterTrue_obsC_false,
                suffixAfterTrue_obsS, suffixAfterTrue_obsC_false,
                suffixAfterTrue_obsS, suffixAfterTrue_segRes]
              exact ih _ _
            · simp [suffixAfterTrue]
      · -- batch branch
        by_cases hmem : RunAction.obsC true ∈
          (runBatch cA (sA p) rOk started p (List.range' clip (min m maxr))
            (tick + 2) false false []).acts
        · -- a cancel (or skip) was observed during the batch
          have hco := runBatch_obsC_true_tick hmem
          split
          · -- segment skipped during the batch; `hco` settles the checkpoint
            simp only [List.append_assoc, List.cons_append, List.nil_append,
              if_pos hco]
            rw [suffixAfterTrue_progress, suffixAfterTrue_obsC_false,
              suffixAfterTrue_obsS, suffixAfterTrue_append_of_mem hmem]
            constructor
            · intro c hc
              rcases List.mem_append.mp hc with hc | hc
              · exact runBatch_suffix_encode_started hc
              · simp at hc
            · rw [List.countP_append, countP_suffix_batch_zero]
              simp [isSegResult]
          · -- batch completed: the in-flight segment still yields its event
            simp only [List.append_assoc, List.cons_append, List.nil_append]
            rw [suffixAfterTrue_progress, suffixAfterTrue_obsC_false,
              suffixAfterTrue_obsS, suffixAfterTrue_append_of_mem hmem,
              runSegs_cancelled hco]
            clear ih
            cases rest with
            | nil =>
              constructor
              · intro c hc
                rcases List.mem_append.mp hc with hc | hc
                · exact runBatch_suffix_encode_started hc
                · simp at hc
              · rw [List.countP_append, countP_suffix_batch_zero]
                simp [isSegResult]
            | cons qm rest' =>
              obtain ⟨q, k⟩ := qm
              constructor
              · intro c hc
                rcases List.mem_append.mp hc with hc | hc
                · exact runBatch_suffix_encode_started hc
                · simp at hc
              · rw [List.countP_append, countP_suffix_batch_zero]
                simp [isSegResult]
        · -- no cancel was observed during the batch
          split
          · split
            · -- skipped mid-batch, then cancel at the checkpoint
              simp only [List.append_assoc, List.cons_append, List.nil_append]
              rw [suffixAfterTrue_progress, suffixAfterTrue_obsC_false,
                suffixAfterTrue_obsS, suffixAfterTrue_append_of_not_mem hmem,
                suffixAfterTrue_obsC_true]
              simp
            · split
              · -- skipped mid-batch, confirmed at the checkpoint
                simp only [List.append_assoc, List.cons_append, List.nil_append]
                rw [suffixAfterTrue_progress, suffixAfterTrue_obsC_false,
                  suffixAfterTrue_obsS, suffixAfterTrue_append_of_not_mem hmem,
                  suffixAfterTrue_obsC_false, suffixAfterTrue_obsS,
                  suffixAfterTrue_segRes]
                exact ih _ _
              · -- unreachable sequential branch: no tail at all
                simp only [List.append_assoc, List.cons_append, List.nil_append,
                  List.append_nil]
                rw [suffixAfterTrue_progress, suffixAfterTrue_obsC_false,
                  suffixAfterTrue_obsS, suffixAfterTrue_nil_of_not_mem hmem]
                simp
          · -- batch completed with no cancel observed
            simp only [List.append_assoc, List.cons_append, List.nil_append]
            rw [suffixAfterTrue_progress, suffixAfterTrue_obsC_false,
              suffixAfterTrue_obsS, suffixAfterTrue_append_of_not_mem hmem,
              suffixAfterTrue_segRes]
            exact ih _ _

/-- C9 counterexample: in a run whose cancel flag is set during the first
segment's render batch (observation threshold 2) with every task already
dispatched, the second task's encode still starts and the in-flight
segment's result event is still emitted after the cancel flag was
observed set — the claim's "no further segment events, no further
encodes" is false as stated. -/
theorem C9_counterexample :
    ¬ ClaimC9At (find_and_export_longest_matches_incremental trivEnv
      "hello world".toList helloTwiceFiles 0 10 2 25 false false 2
      (fun _ => 1000) (fun _ => true) (fun _ => true)) := by
  unfold ClaimC9At
  decide

/-- C9 amended: once the session's cancel flag has been observed set, the
only encode processes that can still start are those of the in-flight
segment's tasks the thread pool had already dispatched — every
post-cancellation encode's clip satisfies the dispatch oracle, so a task
the cancellation caught undispatched never starts its encode — and at
most one further segment event (the in-flight segment's) is emitted; a
cancel observed at a segment pre-check ends the run with no further
events at all, which the bound subsumes. -/
theorem C9_cancellation_amended (env : PyTextEnv) (input_sentence : PyStr)
    (files : List (PyStr × List PySentence)) (min_silence max_silence : ℚ)
    (silence_word_threshold maxr : ℕ) (includeP allP : Bool) (cA : ℕ)
    (sA : PyStr → ℕ) (rOk started : ℕ → Bool) :
    (∀ c : ℕ, RunAction.encode c ∈
        suffixAfterTrue (find_and_export_longest_matches_incremental env
          input_sentence files min_silence max_silence silence_word_threshold
          maxr includeP allP cA sA rOk started) →
        started c = true) ∧
      (suffixAfterTrue (find_and_export_longest_matches_incremental env
        input_sentence files min_silence max_silence silence_word_threshold
        maxr includeP allP cA sA rOk started)).countP isSegResult ≤ 1 := by
  unfold find_and_export_longest_matches_incremental
  simp only []
  exact runSegs_suffix_spec
    ((pipeline_segments env input_sentence files min_silence max_silence
      (max silence_word_threshold 1) includeP allP).map fun s =>
      (s, (lookupGroup (segment_groups_of (collect_file_matches env
        input_sentence files min_silence max_silence
        (max silence_word_threshold 1) includeP)) s).length)) 0 0

/-- Witness for the C9 amended theorem: in the cancelled run with every
task dispatched, the post-cancellation encode of clip 1 satisfies the
dispatch oracle, and the suffix carries at most one segment event. -/
theorem C9_amended_witness :
    (fun _ : ℕ => true) 1 = true ∧
      (suffixAfterTrue (find_and_export_longest_matches_incremental trivEnv
        "hello world".toList helloTwiceFiles 0 10 2 25 false false 2
        (fun _ => 1000) (fun _ => true) (fun _ => true))).countP
        isSegResult ≤ 1 :=
  ⟨(C9_cancellation_amended trivEnv "hello world".toList helloTwiceFiles 0 10
      2 25 false false 2 (fun _ => 1000) (fun _ => true) (fun _ => true)).1
      1 (by decide),
    (C9_cancellation_amended trivEnv "hello world".toList helloTwiceFiles 0 10
      2 25 false false 2 (fun _ => 1000) (fun _ => true) (fun _ => true)).2⟩

/-- C6: every segment result event an incremental search run emits
carries at most `maxr` clip entries, and the configured default cap is
25. -/
theorem C6_segment_cap (env : PyTextEnv) (input_sentence : PyStr)
    (files : List (PyStr × List PySentence)) (min_silence max_silence : ℚ)
    (silence_word_threshold maxr : ℕ) (includeP allP : Bool) (cA : ℕ)
    (sA : PyStr → ℕ) (rOk started : ℕ → Bool) :
    (∀ q fs sk, RunAction.segmentResult q fs sk ∈
        find_and_export_longest_matches_incremental env input_sentence files
          min_silence max_silence silence_word_threshold maxr includeP allP
          cA sA rOk started →
      fs.length ≤ maxr) ∧ MAX_CLIPS_PER_SEGMENT = 25 := by
  refine ⟨fun q fs sk h => ?_, rfl⟩
  unfold find_and_export_longest_matches_incremental at h
  simp only [] at h
  exact runSegs_segResult_len h

/-- Witness for C6 at a concrete two-match run with the default cap. -/
theorem C6_witness :
    ([0, 1] : List ℕ).length ≤ 25 ∧ MAX_CLIPS_PER_SEGMENT = 25 :=
  ⟨(C6_segment_cap trivEnv "hello world".toList helloTwiceFiles 0 10 2 25
      false false 1000 (fun _ => 1000) (fun _ => true) (fun _ => true)).1
    "hello world".toList [0, 1] false (by decide),
    (C6_segment_cap trivEnv "hello world".toList helloTwiceFiles 0 10 2 25
      false false 1000 (fun _ => 1000) (fun _ => true) (fun _ => true)).2⟩

/-- C2: a full-match-only search emits only segment events whose phrase
has the normalized token sequence of the query (indeed, the phrase is the
query itself), and when no file yields a match the run emits nothing at
all — the generator returns an empty, errorless event stream. -/
theorem C2_full_match_only (env : PyTextEnv) (input_sentence : PyStr)
    (files : List (PyStr × List PySentence)) (min_silence max_silence : ℚ)
    (silence_word_threshold maxr : ℕ) (allP : Bool) (cA : ℕ)
    (sA : PyStr → ℕ) (rOk started : ℕ → Bool) :
    (∀ q fs sk, RunAction.segmentResult q fs sk ∈
        find_and_export_longest_matches_incremental env input_sentence files
          min_silence max_silence silence_word_threshold maxr false allP
          cA sA rOk started →
      segmentTokens env q = segmentTokens env input_sentence) ∧
      ((∀ f ∈ files, search_file_matches env input_sentence f.2 min_silence
          max_silence (max silence_word_threshold 1) false = []) →
        find_and_export_longest_matches_incremental env input_sentence files
          min_silence max_silence silence_word_threshold maxr false allP
          cA sA rOk started = []) := by
  constructor
  · intro q fs sk h
    unfold find_and_export_longest_matches_incremental at h
    simp only [] at h
    have hq := runSegs_segResult_mem h
    simp only [List.map_map] at hq
    obtain ⟨s, hs, hqs⟩ := List.mem_map.mp hq
    have : s = input_sentence := pipeline_full_eq_input hs
    rw [← hqs, this]
    rfl
  · intro hempty
    unfold find_and_export_longest_matches_incremental
    simp only []
    have hcol : collect_file_matches env input_sentence files min_silence
        max_silence (max silence_word_threshold 1) false = [] := by
      unfold collect_file_matches
      rw [List.filterMap_eq_nil_iff]
      intro f hf
      simp only []
      rw [if_pos (hempty f hf)]
    have hpipe : pipeline_segments env input_sentence files min_silence
        max_silence (max silence_word_threshold 1) false allP = [] := by
      unfold pipeline_segments
      rw [hcol]
      simp
    rw [hpipe]
    rfl

/-- Witness for C2: a concrete full-match run (token equality of its only
emitted segment event) and the empty-file-set run (no events). -/
theorem C2_witness :
    segmentTokens trivEnv "hello world".toList =
        segmentTokens trivEnv "hello world".toList ∧
      find_and_export_longest_matches_incremental trivEnv
        "hello world".toList [] 0 10 2 25 false false 1000 (fun _ => 1000)
        (fun _ => true) (fun _ => true) = [] :=
  ⟨(C2_full_match_only trivEnv "hello world".toList helloTwiceFiles 0 10 2 25
      false 1000 (fun _ => 1000) (fun _ => true) (fun _ => true)).1
      "hello world".toList [0, 1] false (by decide),
    (C2_full_match_only trivEnv "hello world".toList [] 0 10 2 25 false 1000
      (fun _ => 1000) (fun _ => true) (fun _ => true)).2 (by simp)⟩

/-- C4 (code bug): with the stored metadata matching the request and both
cached clip files verified on disk, the cache prelude decides to reuse
the cache (`skip_export`), yet the incremental export's parallel render
branch — which never consults `skip_export` — still starts one encode
process per match on the repeated run (here 2), so the second run of an
identical search re-encodes instead of reusing the cache. -/
theorem C4_second_run_reencodes :
    clip_cache_check trivEnv
        (some ⟨pySortAsc ["v1.mp4".toList], "hello world".toList, 25⟩)
        ["v1.mp4".toList] true
        ["seg_00000.mp4".toList, "seg_00001.mp4".toList]
        (fun n => ["seg_00000.mp4".toList, "seg_00001.mp4".toList].contains n)
        25 =
      ⟨true, ["seg_00000.mp4".toList, "seg_00001.mp4".toList], false⟩ ∧
      ((find_and_export_longest_matches_incremental trivEnv
          "hello world".toList helloTwiceFiles 0 10 2 25 false false 1000
          (fun _ => 1000) (fun _ => true) (fun _ => true)).filter
        isEncode).length = 2 := by
  constructor
  · decide
  · decide

/-- C8 (code bug): the claim's bound is false — the permit is released in
the `finally` block right after the encoder arguments are built, before
`subprocess.run`, so with 3 tasks and a 2-permit pool a valid
interleaving reaches 3 concurrently running GPU-argument encodes. -/
theorem C8_permit_not_held_for_encode :
    ¬ ClaimC8Bound ∧
      gpuRunningCount (runSched (semInit 3) [0, 0, 1, 1, 2, 2, 0, 1, 2]) = 3 := by
  constructor
  · intro h
    have := h 3 [0, 0, 1, 1, 2, 2, 0, 1, 2]
    revert this
    decide
  · decide

/-- C5 counterexample: stored metadata matches and the directory lists
two clip files of which one is missing on disk; the code narrows to the
verified file and reuses it, while the claim requires the cache to be
invalidated and purged. -/
theorem C5_counterexample :
    ¬ ClaimC5At trivEnv
      (some ⟨pySortAsc ["v1.mp4".toList], "hello world".toList, 25⟩)
      ["v1.mp4".toList] true
      ["seg_00000.mp4".toList, "seg_00001.mp4".toList]
      (fun n => n == "seg_00000.mp4".toList) 25 := by
  unfold ClaimC5At
  decide

/-- C7 counterexample: a GPU-backed encode exiting with code 187 matches
the claimed signature class, but the code performs zero
minimal-parameter GPU retries for it (the minimal retry is reserved for
exit 244 with an NVENC encoder): it disables the GPU and reruns on CPU
directly, contradicting the claim's "exactly one retry with a minimized
GPU parameter set". -/
theorem C7_counterexample :
    ¬ ClaimC7At trivEnv (some ("h264_nvenc".toList, [])) true
      (fun k => match k with
        | CmdKind.primaryGpu => (187, [])
        | _ => (0, [])) := by
  unfold ClaimC7At
  decide

/-- C3 counterexample: searching `a b c d e f` over the `a b c d`
transcript in filtered-partial mode finds the spans `a b c d`, `a b c`
and `b c d` and — no full match existing — retains all three because
each has at least 3 words, although `a b c` and `b c d` are contiguous
substrings of the retained longer span `a b c d`; the claim's
substring-domination rule says they must be dropped. -/
theorem C3_counterexample :
    ¬ ClaimC3At trivEnv "a b c d e f".toList abcdFiles 0 10 2 := by
  unfold ClaimC3At
  decide

/-- C5 amended: exact characterization of the cache prelude.  Reuse
(`skip_export` with the verified files, truncated to the request's
maximum) happens exactly when the stored source-file set matches, the
clip directory exists, at least one listed `.mp4` file is verified
present, and the requested maximum is positive; a missing listed file
only narrows the reused list to the verified subset; the directory is
purged exactly when the metadata mismatches with the directory present,
or it matches but no verified clip remains (or the maximum is zero). -/
theorem C5_cache_validity_amended (env : PyTextEnv)
    (stored : Option ClipMetadata) (current_source_files : List PyStr)
    (dirPresent : Bool) (listing : List PyStr)
    (presentOnDisk : PyStr → Bool) (max_results : ℕ) :
    ((clip_cache_check env stored current_source_files dirPresent listing
        presentOnDisk max_results).skip_export = true ↔
      ((stored.map ClipMetadata.source_files) =
          some (pySortAsc current_source_files) ∧ dirPresent = true ∧
        (pySortAsc (listing.filter fun n =>
            pyEnds (pyLower env n) ('.' :: ['m', 'p', '4']))).filter
          presentOnDisk ≠ [] ∧ 0 < max_results)) ∧
    ((clip_cache_check env stored current_source_files dirPresent listing
        presentOnDisk max_results).cached_clip_files =
      if (clip_cache_check env stored current_source_files dirPresent listing
          presentOnDisk max_results).skip_export = true then
        ((pySortAsc (listing.filter fun n =>
            pyEnds (pyLower env n) ('.' :: ['m', 'p', '4']))).filter
          presentOnDisk).take max_results
      else []) ∧
    ((clip_cache_check env stored current_source_files dirPresent listing
        presentOnDisk max_results).purged = true ↔
      ((¬ (stored.map ClipMetadata.source_files) =
          some (pySortAsc current_source_files)) ∧ dirPresent = true) ∨
        ((stored.map ClipMetadata.source_files) =
            some (pySortAsc current_source_files) ∧ dirPresent = true ∧
          ((pySortAsc (listing.filter fun n =>
              pyEnds (pyLower env n) ('.' :: ['m', 'p', '4']))).filter
            presentOnDisk = [] ∨ max_results = 0))) := by
  by_cases hM : (stored.map ClipMetadata.source_files) =
    some (pySortAsc current_source_files)
  · cases dirPresent with
    | false => simp [clip_cache_check, hM]
    | true =>
      by_cases hCnil : pySortAsc (listing.filter fun n =>
          pyEnds (pyLower env n) ('.' :: ['m', 'p', '4'])) = []
      · simp [clip_cache_check, cacheFinishSkip, hM, hCnil]
      · by_cases hlen : ((pySortAsc (listing.filter fun n =>
            pyEnds (pyLower env n) ('.' :: ['m', 'p', '4']))).filter
              presentOnDisk).length =
            (pySortAsc (listing.filter fun n =>
              pyEnds (pyLower env n) ('.' :: ['m', 'p', '4']))).length
        · have hVC : (pySortAsc (listing.filter fun n =>
              pyEnds (pyLower env n) ('.' :: ['m', 'p', '4']))).filter
                presentOnDisk =
              pySortAsc (listing.filter fun n =>
                pyEnds (pyLower env n) ('.' :: ['m', 'p', '4'])) :=
            (List.filter_sublist _).eq_of_length hlen
          by_cases hm0 : max_results = 0
          · simp [clip_cache_check, cacheFinishSkip, hM, hCnil, hlen, hVC, hm0]
          · have hmin : ¬ min (pySortAsc (listing.filter fun n =>
                pyEnds (pyLower env n) ('.' :: ['m', 'p', '4']))).length
                  max_results = 0 := by
              simp only [Nat.min_eq_zero_iff, List.length_eq_zero]
              push_neg
              exact ⟨hCnil, hm0⟩
            simp [clip_cache_check, cacheFinishSkip, hM, hCnil, hlen, hVC, hm0,
              hmin, Nat.pos_of_ne_zero hm0]
        · by_cases hVnil : (pySortAsc (listing.filter fun n =>
              pyEnds (pyLower env n) ('.' :: ['m', 'p', '4']))).filter
                presentOnDisk = []
          · have h0 : ¬ (0 = (pySortAsc (listing.filter fun n =>
                pyEnds (pyLower env n) ('.' :: ['m', 'p', '4']))).length) :=
              fun h => hCnil (List.length_eq_zero.mp h.symm)
            simp [clip_cache_check, cacheFinishSkip, hM, hCnil, hlen, hVnil, h0]
          · by_cases hm0 : max_results = 0
            · simp [clip_cache_check, cacheFinishSkip, hM, hCnil, hlen, hVnil,
                hm0]
            · have hmin : ¬ min ((pySortAsc (listing.filter fun n =>
                  pyEnds (pyLower env n) ('.' :: ['m', 'p', '4']))).filter
                    presentOnDisk).length max_results = 0 := by
                simp only [Nat.min_eq_zero_iff, List.length_eq_zero]
                push_neg
                exact ⟨hVnil, hm0⟩
              simp [clip_cache_check, cacheFinishSkip, hM, hCnil, hlen, hVnil,
                hm0, hmin, Nat.pos_of_ne_zero hm0]
  · simp [clip_cache_check, hM]

lemma applyGpuOp_disabled_fixed (op : GpuOp) :
    applyGpuOp ⟨some none, true⟩ op = ⟨some none, true⟩ := by
  cases op <;> rfl

lemma applyGpuOps_disabled_fixed (ops : List GpuOp) :
    applyGpuOps ⟨some none, true⟩ ops = ⟨some none, true⟩ := by
  induction ops with
  | nil => rfl
  | cons op t ih =>
    unfold applyGpuOps at ih ⊢
    rw [List.foldl_cons, applyGpuOp_disabled_fixed]
    exact ih

/-- C7 amended: characterization of `render_single_clip`'s failure
handling, and the one-way GPU disable.  A successful primary encode runs
nothing else; a failure without a configured encoder, or outside the
signature class, is a per-task failure that leaves the GPU enabled; a
signature-class failure gets exactly one minimal-parameter NVENC retry
when and only when the exit code is 244 and the encoder name contains
`nvenc` — otherwise zero GPU retries — and any path that exhausts GPU
options disables the encoder (an absorbing state no later operation
re-enables) and reruns the task on the CPU. -/
theorem C7_gpu_failure_amended (env : PyTextEnv)
    (gpu : Option (PyStr × List PyStr)) (semAcquired : Bool)
    (exec : CmdKind → ℤ × PyStr) (st : GpuState) (ops : List GpuOp) :
    ((exec (primaryCmd gpu semAcquired)).1 = 0 →
      render_single_clip env gpu semAcquired exec =
        ⟨true, none, [primaryCmd gpu semAcquired], false⟩) ∧
    ((exec (primaryCmd gpu semAcquired)).1 ≠ 0 → gpu = none →
      render_single_clip env gpu semAcquired exec =
        ⟨false, some (exec (primaryCmd gpu semAcquired)).2,
          [primaryCmd gpu semAcquired], false⟩) ∧
    (∀ e a, gpu = some (e, a) → (exec (primaryCmd gpu semAcquired)).1 ≠ 0 →
      isGpuSignature env (exec (primaryCmd gpu semAcquired)).1
          (exec (primaryCmd gpu semAcquired)).2 = false →
      render_single_clip env gpu semAcquired exec =
        ⟨false, some (exec (primaryCmd gpu semAcquired)).2,
          [primaryCmd gpu semAcquired], false⟩) ∧
    (∀ e a, gpu = some (e, a) → (exec (primaryCmd gpu semAcquired)).1 ≠ 0 →
      isGpuSignature env (exec (primaryCmd gpu semAcquired)).1
          (exec (primaryCmd gpu semAcquired)).2 = true →
      (((exec (primaryCmd gpu semAcquired)).1 = 244 ∧
          pyContains (pyLower env e) "nvenc".toList = true) →
        (render_single_clip env gpu semAcquired exec).cmds.count
            CmdKind.minimalNvenc = 1 ∧
          ((exec CmdKind.minimalNvenc).1 = 0 →
            render_single_clip env gpu semAcquired exec =
              ⟨true, none, [primaryCmd gpu semAcquired, CmdKind.minimalNvenc],
                false⟩) ∧
          ((exec CmdKind.minimalNvenc).1 ≠ 0 →
            (render_single_clip env gpu semAcquired exec).gpuDisabled = true ∧
              (render_single_clip env gpu semAcquired exec).cmds =
                [primaryCmd gpu semAcquired, CmdKind.minimalNvenc,
                  CmdKind.retryCpu] ∧
              ((render_single_clip env gpu semAcquired exec).ok = true ↔
                (exec CmdKind.retryCpu).1 = 0))) ∧
      (¬ ((exec (primaryCmd gpu semAcquired)).1 = 244 ∧
          pyContains (pyLower env e) "nvenc".toList = true) →
        (render_single_clip env gpu semAcquired exec).cmds =
            [primaryCmd gpu semAcquired, CmdKind.retryCpu] ∧
          (render_single_clip env gpu semAcquired exec).cmds.count
            CmdKind.minimalNvenc = 0 ∧
          (render_single_clip env gpu semAcquired exec).gpuDisabled = true ∧
          ((render_single_clip env gpu semAcquired exec).ok = true ↔
            (exec CmdKind.retryCpu).1 = 0))) ∧
    ((applyGpuOps (disable_gpu_encoder st) ops).disabled = true ∧
      get_gpu_encoder (applyGpuOps (disable_gpu_encoder st) ops) = none) := by
  refine ⟨?_, ?_, ?_, ?_, ?_⟩
  · intro h0
    unfold render_single_clip primaryCmd at *
    simp only [] at *
    rw [if_pos h0]
  · intro h0 hnone
    subst hnone
    unfold render_single_clip primaryCmd at *
    simp only [Option.isSome_none, Bool.false_and] at *
    rw [if_neg h0]
  · intro e a hg h0 hsig
    subst hg
    unfold render_single_clip primaryCmd at *
    simp only [Option.isSome_some, Bool.true_and] at *
    rw [if_neg h0, hsig]
    simp
  · intro e a hg h0 hsig
    subst hg
    constructor
    · intro ⟨h244, hnv⟩
      unfold render_single_clip primaryCmd at *
      simp only [Option.isSome_some, Bool.true_and] at *
      rw [if_neg h0, hsig]
      simp only [if_pos (And.intro h244 hnv), if_true]
      by_cases hm : (exec CmdKind.minimalNvenc).1 = 0
      · rw [if_pos hm]
        refine ⟨by cases semAcquired <;> simp [List.count_cons], fun _ => rfl, fun hm' => absurd hm hm'⟩
      · rw [if_neg hm]
        by_cases hc : (exec CmdKind.retryCpu).1 ≠ 0
        · rw [if_pos hc]
          refine ⟨by cases semAcquired <;> simp [List.count_cons], fun hm' => absurd hm' hm, ?_⟩
          intro _
          refine ⟨rfl, rfl, ?_⟩
          simp only []
          constructor
          · intro hfalse
            exact absurd hfalse (by simp)
          · intro hzero
            exact absurd hzero hc
        · rw [if_neg hc]
          push_neg at hc
          refine ⟨by cases semAcquired <;> simp [List.count_cons], fun hm' => absurd hm' hm, ?_⟩
          intro _
          exact ⟨rfl, rfl, by simp [hc]⟩
    · intro hnot
      unfold render_single_clip primaryCmd at *
      simp only [Option.isSome_some, Bool.true_and] at *
      rw [if_neg h0, hsig]
      simp only [if_neg hnot, if_true]
      by_cases hc : (exec CmdKind.retryCpu).1 ≠ 0
      · rw [if_pos hc]
        refine ⟨rfl, by cases semAcquired <;> simp [List.count_cons], rfl, ?_⟩
        constructor
        · intro hfalse
          exact absurd hfalse (by simp)
        · intro hzero
          exact absurd hzero hc
      · rw [if_neg hc]
        push_neg at hc
        exact ⟨rfl, by cases semAcquired <;> simp [List.count_cons], rfl, by simp [hc]⟩
  · rw [show disable_gpu_encoder st = ⟨some none, true⟩ from rfl,
      applyGpuOps_disabled_fixed]
    exact ⟨rfl, rfl⟩

/-- Witness for C7 at the exit-187 oracle: no minimal retry, GPU
disabled, CPU rerun decides the outcome. -/
theorem C7_amended_witness :
    (render_single_clip trivEnv (some ("h264_nvenc".toList, [])) true
        (fun k => match k with
          | CmdKind.primaryGpu => ((187 : ℤ), ([] : PyStr))
          | _ => (0, []))).cmds =
        [primaryCmd (some ("h264_nvenc".toList, [])) true, CmdKind.retryCpu] ∧
      (render_single_clip trivEnv (some ("h264_nvenc".toList, [])) true
        (fun k => match k with
          | CmdKind.primaryGpu => ((187 : ℤ), ([] : PyStr))
          | _ => (0, []))).cmds.count CmdKind.minimalNvenc = 0 ∧
      (render_single_clip trivEnv (some ("h264_nvenc".toList, [])) true
        (fun k => match k with
          | CmdKind.primaryGpu => ((187 : ℤ), ([] : PyStr))
          | _ => (0, []))).gpuDisabled = true ∧
      ((render_single_clip trivEnv (some ("h264_nvenc".toList, [])) true
        (fun k => match k with
          | CmdKind.primaryGpu => ((187 : ℤ), ([] : PyStr))
          | _ => (0, []))).ok = true ↔
        ((fun k => match k with
          | CmdKind.primaryGpu => ((187 : ℤ), ([] : PyStr))
          | _ => ((0 : ℤ), ([] : PyStr))) CmdKind.retryCpu).1 = 0) :=
  ((C7_gpu_failure_amended trivEnv (some ("h264_nvenc".toList, [])) true
      (fun k => match k with
        | CmdKind.primaryGpu => ((187 : ℤ), ([] : PyStr))
        | _ => (0, [])) ⟨none, false⟩ []).2.2.2.1 "h264_nvenc".toList []
    rfl (by decide) (by decide)).2 (by decide)

lemma firstPassStep_eq (env : PyTextEnv) (inputNorm : PyStr) (inputWc : ℕ)
    (st : List PyStr × List PyStr) (seg : PyStr) :
    firstPassStep env inputNorm inputWc st seg =
      if inputWc ≤ wcN env seg ∨ segNorm env seg = inputNorm then
        (st.1 ++ [seg], st.2)
      else if st.1.any fun l =>
          decide (wcN env seg < wcN env l) &&
            pyContains (segNorm env l) (segNorm env seg) then st
      else (st.1, st.2 ++ [seg]) := rfl

lemma fp_mem_fst {env : PyTextEnv} {inputNorm : PyStr} {inputWc : ℕ} :
    ∀ {segs : List PyStr} {pr ot : List PyStr} {s : PyStr},
      s ∈ (segs.foldl (firstPassStep env inputNorm inputWc) (pr, ot)).1 →
      s ∈ pr ∨ s ∈ segs := by
  intro segs
  induction segs with
  | nil => exact fun h => Or.inl h
  | cons x xs ih =>
    intro pr ot s h
    rw [List.foldl_cons, firstPassStep_eq] at h
    split at h
    · rcases ih h with h' | h'
      · rcases List.mem_append.mp h' with h'' | h''
        · exact Or.inl h''
        · exact Or.inr (List.mem_singleton.mp h'' ▸ List.mem_cons_self x xs)
      · exact Or.inr (List.mem_cons_of_mem x h')
    · split at h
      · rcases ih h with h' | h'
        · exact Or.inl h'
        · exact Or.inr (List.mem_cons_of_mem x h')
      · rcases ih h with h' | h'
        · exact Or.inl h'
        · exact Or.inr (List.mem_cons_of_mem x h')

lemma fp_mem_snd {env : PyTextEnv} {inputNorm : PyStr} {inputWc : ℕ} :
    ∀ {segs : List PyStr} {pr ot : List PyStr} {s : PyStr},
      s ∈ (segs.foldl (firstPassStep env inputNorm inputWc) (pr, ot)).2 →
      s ∈ ot ∨ s ∈ segs := by
  intro segs
  induction segs with
  | nil => exact fun h => Or.inl h
  | cons x xs ih =>
    intro pr ot s h
    rw [List.foldl_cons, firstPassStep_eq] at h
    split at h
    · rcases ih h with h' | h'
      · exact Or.inl h'
      · exact Or.inr (List.mem_cons_of_mem x h')
    · split at h
      · rcases ih h with h' | h'
        · exact Or.inl h'
        · exact Or.inr (List.mem_cons_of_mem x h')
      · rcases ih h with h' | h'
        · rcases List.mem_append.mp h' with h'' | h''
          · exact Or.inl h''
          · exact Or.inr (List.mem_singleton.mp h'' ▸ List.mem_cons_self x xs)
        · exact Or.inr (List.mem_cons_of_mem x h')

lemma fp_fst_wc {env : PyTextEnv} {inputNorm : PyStr} {inputWc : ℕ}
    (hIW : inputWc = (pySplit env inputNorm).length) :
    ∀ {segs : List PyStr} {pr ot : List PyStr},
      (∀ x ∈ pr, inputWc ≤ wcN env x) →
      ∀ x ∈ (segs.foldl (firstPassStep env inputNorm inputWc) (pr, ot)).1,
        inputWc ≤ wcN env x := by
  intro segs
  induction segs with
  | nil => exact fun hp x h => hp x h
  | cons y xs ih =>
    intro pr ot hp x h
    rw [List.foldl_cons, firstPassStep_eq] at h
    split at h
    · rename_i hcond
      refine ih ?_ x h
      intro z hz
      rcases List.mem_append.mp hz with hz' | hz'
      · exact hp z hz'
      · rcases List.mem_singleton.mp hz' with rfl
        rcases hcond with hc | hc
        · exact hc
        · rw [hIW, wcN, hc]
    · split at h
      · exact ih hp x h
      · exact ih hp x h

lemma fp_snd_wc {env : PyTextEnv} {inputNorm : PyStr} {inputWc : ℕ} :
    ∀ {segs : List PyStr} {pr ot : List PyStr},
      (∀ x ∈ ot, wcN env x < inputWc) →
      ∀ x ∈ (segs.foldl (firstPassStep env inputNorm inputWc) (pr, ot)).2,
        wcN env x < inputWc := by
  intro segs
  induction segs with
  | nil => exact fun hp x h => hp x h
  | cons y xs ih =>
    intro pr ot hp x h
    rw [List.foldl_cons, firstPassStep_eq] at h
    split at h
    · exact ih hp x h
    · rename_i hcond
      split at h
      · exact ih hp x h
      · refine ih ?_ x h
        intro z hz
        rcases List.mem_append.mp hz with hz' | hz'
        · exact hp z hz'
        · rcases List.mem_singleton.mp hz' with rfl
          push_neg at hcond
          exact hcond.1

lemma fp_fst_append {env : PyTextEnv} {inputNorm : PyStr} {inputWc : ℕ} :
    ∀ {segs : List PyStr} {pr ot : List PyStr},
      ∃ r, (segs.foldl (firstPassStep env inputNorm inputWc) (pr, ot)).1 =
        pr ++ r ∧ ∀ x ∈ r, x ∈ segs := by
  intro segs
  induction segs with
  | nil => exact ⟨[], by simp⟩
  | cons y xs ih =>
    intro pr ot
    rw [List.foldl_cons, firstPassStep_eq]
    split
    · obtain ⟨r, hr, hmem⟩ := @ih (pr ++ [y]) ot
      refine ⟨[y] ++ r, by rw [hr, List.append_assoc], ?_⟩
      intro x hx
      rcases List.mem_append.mp hx with hx' | hx'
      · exact List.mem_singleton.mp hx' ▸ List.mem_cons_self y xs
      · exact List.mem_cons_of_mem y (hmem x hx')
    · split
      · obtain ⟨r, hr, hmem⟩ := @ih pr ot
        exact ⟨r, hr, fun x hx => List.mem_cons_of_mem y (hmem x hx)⟩
      · obtain ⟨r, hr, hmem⟩ := @ih pr (ot ++ [y])
        exact ⟨r, hr, fun x hx => List.mem_cons_of_mem y (hmem x hx)⟩

lemma fp_fst_complete {env : PyTextEnv} {inputNorm : PyStr} {inputWc : ℕ} :
    ∀ {segs : List PyStr} {pr ot : List PyStr} {s : PyStr}, s ∈ segs →
      (inputWc ≤ wcN env s ∨ segNorm env s = inputNorm) →
      s ∈ (segs.foldl (firstPassStep env inputNorm inputWc) (pr, ot)).1 := by
  intro segs
  induction segs with
  | nil => exact fun h _ => absurd h (List.not_mem_nil _)
  | cons y xs ih =>
    intro pr ot s hs hcond
    rw [List.foldl_cons, firstPassStep_eq]
    rcases List.mem_cons.mp hs with rfl | hs'
    · rw [if_pos hcond]
      obtain ⟨r, hr, -⟩ := @fp_fst_append env inputNorm inputWc xs (pr ++ [s]) ot
      rw [hr]
      simp
    · split
      · exact ih hs' hcond
      · split
        · exact ih hs' hcond
        · exact ih hs' hcond

lemma fp_snd_sound {env : PyTextEnv} {inputNorm : PyStr} {inputWc : ℕ} :
    ∀ {segs : List PyStr} {pr ot : List PyStr} {s : PyStr},
      List.Pairwise (fun a b => wcN env b ≤ wcN env a) segs →
      s ∈ (segs.foldl (firstPassStep env inputNorm inputWc) (pr, ot)).2 →
      s ∈ ot ∨
        ((segs.foldl (firstPassStep env inputNorm inputWc) (pr, ot)).1.any
          fun l => decide (wcN env s < wcN env l) &&
            pyContains (segNorm env l) (segNorm env s)) = false := by
  intro segs
  induction segs with
  | nil => exact fun _ h => Or.inl h
  | cons y xs ih =>
    intro pr ot s hsort h
    obtain ⟨hy, hxs⟩ := List.pairwise_cons.mp hsort
    rw [List.foldl_cons, firstPassStep_eq] at h ⊢
    by_cases hcond : inputWc ≤ wcN env y ∨ segNorm env y = inputNorm
    · rw [if_pos hcond] at h ⊢
      exact ih hxs h
    · rw [if_neg hcond] at h ⊢
      by_cases hany : (pr.any fun l =>
          decide (wcN env y < wcN env l) &&
            pyContains (segNorm env l) (segNorm env y)) = true
      · rw [if_pos hany] at h ⊢
        exact ih hxs h
      · rw [if_neg hany] at h ⊢
        rcases ih hxs h with h' | h'
        · rcases List.mem_append.mp h' with h'' | h''
          · exact Or.inl h''
          · rcases List.mem_singleton.mp h'' with rfl
            refine Or.inr ?_
            rw [List.any_eq_false]
            intro l hl
            dsimp only at hl
            obtain ⟨r, hr, hrmem⟩ := @fp_fst_append env inputNorm inputWc xs pr (ot ++ [s])
            rw [hr] at hl
            rcases List.mem_append.mp hl with hl' | hl'
            · have hprf : (pr.any fun l =>
                  decide (wcN env s < wcN env l) &&
                    pyContains (segNorm env l) (segNorm env s)) = false :=
                Bool.eq_false_iff.mpr hany
              exact List.any_eq_false.mp hprf l hl'
            · have hle := hy l (hrmem l hl')
              simp only [Bool.and_eq_true, decide_eq_true_eq, not_and]
              intro hlt
              exact absurd hlt (not_lt.mpr hle)
        · exact Or.inr h'

lemma filter_partial_eq_full (env : PyTextEnv) (input_sentence : PyStr)
    (segs : List PyStr)
    (hb : (segs.any fun s =>
      segNorm env s == segNorm env input_sentence) = true) :
    filter_partial_segments env input_sentence false segs =
      (segs.foldl (firstPassStep env (segNorm env input_sentence)
          (pySplit env (segNorm env input_sentence)).length) ([], [])).1 ++
        List.filter
          (shortKeep env
            ((segs.foldl (firstPassStep env (segNorm env input_sentence)
                (pySplit env (segNorm env input_sentence)).length)
                ([], [])).1 ++
              (segs.foldl (firstPassStep env (segNorm env input_sentence)
                (pySplit env (segNorm env input_sentence)).length)
                ([], [])).2))
          (segs.foldl (firstPassStep env (segNorm env input_sentence)
            (pySplit env (segNorm env input_sentence)).length) ([], [])).2 := by
  simp only [filter_partial_segments, firstPassFold, hb, if_true,
    Bool.not_false]

lemma filter_partial_eq_nofull (env : PyTextEnv) (input_sentence : PyStr)
    (segs : List PyStr)
    (hb : (segs.any fun s =>
      segNorm env s == segNorm env input_sentence) = false) :
    filter_partial_segments env input_sentence false segs =
      segs.filter (shortKeep env segs) := by
  simp only [filter_partial_segments, firstPassFold, hb, Bool.false_eq_true,
    if_false, Bool.not_false, if_true]

/-- C3: amended partial-retention property of the filtered partial mode
(src/server.py:2288-2399). Every retained span comes from the candidate
pool. With a full match present, every span at least the phrase's word
count is retained; a retained shorter span is either at least 3 words or
undominated among retained spans, and is never a contiguous substring of
a retained span of at least the phrase's word count. With no full match,
every span of at least 3 words is retained unconditionally, and a
retained shorter span is not a contiguous substring of any retained
longer span. -/
theorem C3_partial_retention_amended (env : PyTextEnv)
    (input_sentence : PyStr) (segs : List PyStr)
    (hsorted : List.Pairwise (fun a b => wcN env b ≤ wcN env a) segs) :
    (∀ s ∈ filter_partial_segments env input_sentence false segs,
      s ∈ segs) ∧
    ((∃ t ∈ segs, segNorm env t = segNorm env input_sentence) →
      (∀ s ∈ segs,
          (pySplit env (segNorm env input_sentence)).length ≤ wcN env s →
          s ∈ filter_partial_segments env input_sentence false segs) ∧
      ∀ s ∈ filter_partial_segments env input_sentence false segs,
        wcN env s < (pySplit env (segNorm env input_sentence)).length →
          (3 ≤ wcN env s ∨
            ∀ l ∈ filter_partial_segments env input_sentence false segs,
              l ≠ s → wcN env s < wcN env l →
              pyContains (segNorm env l) (segNorm env s) = false) ∧
          ∀ l ∈ filter_partial_segments env input_sentence false segs,
            (pySplit env (segNorm env input_sentence)).length ≤
              wcN env l →
            wcN env s < wcN env l →
            pyContains (segNorm env l) (segNorm env s) = false) ∧
    ((¬ ∃ t ∈ segs, segNorm env t = segNorm env input_sentence) →
      (∀ s ∈ segs, 3 ≤ wcN env s →
          s ∈ filter_partial_segments env input_sentence false segs) ∧
      ∀ s ∈ filter_partial_segments env input_sentence false segs,
        wcN env s < 3 →
        ∀ l ∈ filter_partial_segments env input_sentence false segs,
          l ≠ s → wcN env s < wcN env l →
          pyContains (segNorm env l) (segNorm env s) = false) := by
  by_cases hfull : ∃ t ∈ segs, segNorm env t = segNorm env input_sentence
  · have hb : (segs.any fun s =>
        segNorm env s == segNorm env input_sentence) = true := by
      rw [List.any_eq_true]
      obtain ⟨t, ht, he⟩ := hfull
      exact ⟨t, ht, beq_iff_eq.mpr he⟩
    rw [filter_partial_eq_full env input_sentence segs hb]
    refine ⟨?_, fun _ => ⟨?_, ?_⟩, fun hn => absurd hfull hn⟩
    · intro s hs
      rcases List.mem_append.mp hs with hs' | hs'
      · rcases fp_mem_fst hs' with h | h
        · exact absurd h (List.not_mem_nil s)
        · exact h
      · rcases fp_mem_snd (List.mem_of_mem_filter hs') with h | h
        · exact absurd h (List.not_mem_nil s)
        · exact h
    · intro s hs hwc
      exact List.mem_append_left _ (fp_fst_complete hs (Or.inl hwc))
    · intro s hs hlt
      have hsp : s ∉ (segs.foldl
          (firstPassStep env (segNorm env input_sentence)
            (pySplit env (segNorm env input_sentence)).length)
          ([], [])).1 := by
        intro hc
        exact absurd
          (fp_fst_wc rfl (fun x hx => absurd hx (List.not_mem_nil x)) s hc)
          (not_le.mpr hlt)
      have hsf : s ∈ List.filter
          (shortKeep env
            ((segs.foldl (firstPassStep env (segNorm env input_sentence)
                (pySplit env (segNorm env input_sentence)).length)
                ([], [])).1 ++
              (segs.foldl (firstPassStep env (segNorm env input_sentence)
                (pySplit env (segNorm env input_sentence)).length)
                ([], [])).2))
          (segs.foldl (firstPassStep env (segNorm env input_sentence)
            (pySplit env (segNorm env input_sentence)).length)
            ([], [])).2 := by
        rcases List.mem_append.mp hs with h | h
        · exact absurd h hsp
        · exact h
      have hso := List.mem_of_mem_filter hsf
      have hkeep := (List.mem_filter.mp hsf).2
      unfold shortKeep at hkeep
      rw [Bool.or_eq_true] at hkeep
      constructor
      · rcases hkeep with h3 | hno
        · exact Or.inl (of_decide_eq_true h3)
        · refine Or.inr ?_
          intro l hl hne hlwc
          simp only [Bool.not_eq_true'] at hno
          have hlpool : l ∈
              (segs.foldl (firstPassStep env (segNorm env input_sentence)
                (pySplit env (segNorm env input_sentence)).length)
                ([], [])).1 ++
              (segs.foldl (firstPassStep env (segNorm env input_sentence)
                (pySplit env (segNorm env input_sentence)).length)
                ([], [])).2 := by
            rcases List.mem_append.mp hl with h | h
            · exact List.mem_append_left _ h
            · exact List.mem_append_right _ (List.mem_of_mem_filter h)
          have hX := List.any_eq_false.mp hno l hlpool
          cases hcon : pyContains (segNorm env l) (segNorm env s)
          · rfl
          · exact absurd (show (l != s &&
              decide (wcN env s < wcN env l) &&
              pyContains (segNorm env l) (segNorm env s)) = true by
                rw [bne_iff_ne.mpr hne, decide_eq_true hlwc, hcon]; rfl) hX
      · intro l hl hlIW hslt
        have hlpr : l ∈ (segs.foldl
            (firstPassStep env (segNorm env input_sentence)
              (pySplit env (segNorm env input_sentence)).length)
            ([], [])).1 := by
          rcases List.mem_append.mp hl with h | h
          · exact h
          · exact absurd
              (fp_snd_wc (fun x hx => absurd hx (List.not_mem_nil x)) l
                (List.mem_of_mem_filter h))
              (not_lt.mpr hlIW)
        rcases fp_snd_sound hsorted hso with h | h
        · exact absurd h (List.not_mem_nil s)
        · have hX := List.any_eq_false.mp h l hlpr
          cases hcon : pyContains (segNorm env l) (segNorm env s)
          · rfl
          · exact absurd (show (decide (wcN env s < wcN env l) &&
              pyContains (segNorm env l) (segNorm env s)) = true by
                rw [decide_eq_true hslt, hcon]; rfl) hX
  · have hb : (segs.any fun s =>
        segNorm env s == segNorm env input_sentence) = false := by
      rw [List.any_eq_false]
      intro x hx h
      exact hfull ⟨x, hx, beq_iff_eq.mp h⟩
    rw [filter_partial_eq_nofull env input_sentence segs hb]
    refine ⟨fun s hs => List.mem_of_mem_filter hs,
      fun hf => absurd hf hfull, fun _ => ⟨?_, ?_⟩⟩
    · intro s hs h3
      refine List.mem_filter.mpr ⟨hs, ?_⟩
      unfold shortKeep
      rw [Bool.or_eq_true]
      exact Or.inl (decide_eq_true h3)
    · intro s hs h3 l hl hne hlt
      have hkeep := (List.mem_filter.mp hs).2
      unfold shortKeep at hkeep
      rw [Bool.or_eq_true] at hkeep
      rcases hkeep with hc | hno
      · exact absurd (of_decide_eq_true hc) (not_le.mpr h3)
      · simp only [Bool.not_eq_true'] at hno
        have hX := List.any_eq_false.mp hno l (List.mem_of_mem_filter hl)
        cases hcon : pyContains (segNorm env l) (segNorm env s)
        · rfl
        · exact absurd (show (l != s &&
            decide (wcN env s < wcN env l) &&
            pyContains (segNorm env l) (segNorm env s)) = true by
              rw [bne_iff_ne.mpr hne, decide_eq_true hlt, hcon]; rfl) hX

/-- Witness for the C3 amended theorem: with no full match, the 3-word
span stays retained even under a retained 4-word superspan. -/
theorem C3_amended_witness :
    "b c d".toList ∈ filter_partial_segments trivEnv
      "a b c d e f".toList false
      ["a b c d".toList, "a b c".toList, "b c d".toList] :=
  ((C3_partial_retention_amended trivEnv "a b c d e f".toList
      ["a b c d".toList, "a b c".toList, "b c d".toList]
      (by decide)).2.2 (by decide)).1 "b c d".toList (by decide) (by decide)
